import Mathlib

/-!
Verification development for the BusTub-style storage engine
(buffer pool manager, LRU-K replacer, extendible hash table,
B+ tree index, lock manager, executors).

Each component is shallowly embedded: the C++ state is a Lean structure,
each member function a Lean function translated statement-by-statement
from the source file.  Machine integers are modelled as `Nat`; the only
place where the width matters is the `INT64_MAX` sentinel of the LRU-K
replacer, kept explicit below.
-/

/-! # LRU-K replacer (src/buffer/lru_k_replacer.cpp) -/

/-- `INT64_MAX`, the sentinel used by `LRUKReplacer::Evict` for both
`eariest_time` and `max_interval`. -/
def I64MAX : Nat := 2 ^ 63 - 1

/-- One slot of the `replacer_` vector: the access-history list
(front = oldest recorded timestamp) and the evictable flag. -/
structure ReplacerEntry where
  hist : List Nat
  evictable : Bool
deriving Repr, DecidableEq

/-- State of `LRUKReplacer`: `k_`, `current_timestamp_`, the `replacer_`
vector (index = frame id) and `replacer_size_`. -/
structure LRUKReplacer where
  k : Nat
  curTs : Nat
  entries : List ReplacerEntry
  size : Nat
deriving Repr, DecidableEq

/-- `LRUKReplacer::LRUKReplacer(num_frames, k)`. -/
def LRUKReplacer.init (numFrames k : Nat) : LRUKReplacer :=
  ⟨k, 0, List.replicate numFrames ⟨[], false⟩, 0⟩

/-- First element of the history (`it->first.front()`); only read by the
source behind a non-emptiness test. -/
def ReplacerEntry.front (e : ReplacerEntry) : Nat := e.hist.headD 0

/-- The loop body of `LRUKReplacer::Evict`, fused with the loop: walks the
`replacer_` vector carrying `(max_interval, eariest_time, flag, j)` where
`j` is the index of the currently chosen victim.  `current_timestamp_ -
front` is `Nat` subtraction: recorded timestamps are always strictly below
`current_timestamp_`, so the `size_t` subtraction in the source never
wraps on reachable states. -/
def evictLoop (k curTs : Nat) : Nat → List ReplacerEntry → Nat × Nat × Bool × Nat →
    Nat × Nat × Bool × Nat
  | _, [], st => st
  | idx, e :: rest, (mi, et, fl, ch) =>
    let st :=
      if !e.evictable || e.hist.isEmpty then (mi, et, fl, ch)
      else if e.hist.length < k then
        if e.front < et then (I64MAX, e.front, true, idx)
        else (I64MAX, et, true, ch)
      else if curTs - e.front > mi then (curTs - e.front, et, true, idx)
      else (mi, et, true, ch)
    evictLoop k curTs (idx + 1) rest st

/-- `LRUKReplacer::Evict`: returns the chosen frame id and the updated
state (history cleared, marked non-evictable, size decremented), or
`none` when no evictable frame with history exists (`flag == false`). -/
def LRUKReplacer.evict (r : LRUKReplacer) : Option (Nat × LRUKReplacer) :=
  let res := evictLoop r.k r.curTs 0 r.entries (0, I64MAX, false, 0)
  if res.2.2.1 then
    let ch := res.2.2.2
    some (ch, { r with entries := r.entries.set ch ⟨[], false⟩, size := r.size - 1 })
  else none

/-- `LRUKReplacer::RecordAccess`: drop the oldest timestamp when the
history already holds `k_`, append the current timestamp, bump the
clock.  An out-of-range frame id aborts in the source
(`BUSTUB_ASSERT`); the embedding leaves the state unchanged, and no
theorem below evaluates it out of range. -/
def LRUKReplacer.recordAccess (r : LRUKReplacer) (i : Nat) : LRUKReplacer :=
  match r.entries.get? i with
  | none => r
  | some e =>
    let h := if e.hist.length == r.k then e.hist.tail else e.hist
    { r with entries := r.entries.set i ⟨h ++ [r.curTs], e.evictable⟩, curTs := r.curTs + 1 }

/-- `LRUKReplacer::SetEvictable`: no-op on an empty history, otherwise
toggle the flag and keep `replacer_size_` equal to the count of
evictable frames. -/
def LRUKReplacer.setEvictable (r : LRUKReplacer) (i : Nat) (b : Bool) : LRUKReplacer :=
  match r.entries.get? i with
  | none => r
  | some e =>
    if e.hist.isEmpty then r
    else
      let sz := if b && !e.evictable then r.size + 1
                else if !b && e.evictable then r.size - 1
                else r.size
      { r with entries := r.entries.set i ⟨e.hist, b⟩, size := sz }

/-- `LRUKReplacer::Remove`: out-of-range is a no-op; an evictable frame
with history is cleared; a non-evictable frame with history aborts in the
source (modelled as no-op, never evaluated there). -/
def LRUKReplacer.remove (r : LRUKReplacer) (i : Nat) : LRUKReplacer :=
  match r.entries.get? i with
  | none => r
  | some e =>
    if e.hist.isEmpty then r
    else if e.evictable then
      { r with entries := r.entries.set i ⟨[], false⟩, size := r.size - 1 }
    else r

/-- Frame `i` is an evictable frame with fewer than `k` recorded
accesses (backward K-distance `+∞`). -/
def LRUKReplacer.candLt (r : LRUKReplacer) (i : Nat) : Bool :=
  match r.entries.get? i with
  | none => false
  | some e => e.evictable && !e.hist.isEmpty && decide (e.hist.length < r.k)

/-- Frame `i` is an evictable frame with at least `k` recorded accesses. -/
def LRUKReplacer.candGe (r : LRUKReplacer) (i : Nat) : Bool :=
  match r.entries.get? i with
  | none => false
  | some e => e.evictable && !e.hist.isEmpty && decide (r.k ≤ e.hist.length)

/-- Oldest recorded timestamp of frame `i`; for a frame with exactly `k`
recorded accesses this is the K-th most recent access. -/
def LRUKReplacer.frontAt (r : LRUKReplacer) (i : Nat) : Nat :=
  match r.entries.get? i with
  | none => 0
  | some e => e.front

/-- All recorded timestamps lie strictly below the current clock and the
clock stays below `INT64_MAX`: true of every state reachable through
`recordAccess`, which stamps with the pre-increment clock value. -/
def LRUKReplacer.WF (r : LRUKReplacer) : Prop :=
  (∀ e ∈ r.entries, ∀ t ∈ e.hist, t < r.curTs) ∧ r.curTs ≤ I64MAX

instance (r : LRUKReplacer) : Decidable r.WF := by
  unfold LRUKReplacer.WF; infer_instance

/-- The S1 scenario state: 7 frames, K = 2, accesses 1,2,3,1,2, frames
1,2,3 evictable. -/
def lrukS1 : LRUKReplacer :=
  (((((((LRUKReplacer.init 7 2).recordAccess 1).recordAccess 2).recordAccess 3).recordAccess
    1).recordAccess 2).setEvictable 1 true).setEvictable 2 true |>.setEvictable 3 true

/-- Entry is an evictable, non-empty history, fewer-than-k-accesses frame. -/
def entLt (k : Nat) (e : ReplacerEntry) : Bool :=
  e.evictable && !e.hist.isEmpty && decide (e.hist.length < k)

/-- Entry is an evictable, non-empty history, at-least-k-accesses frame. -/
def entGe (k : Nat) (e : ReplacerEntry) : Bool :=
  e.evictable && !e.hist.isEmpty && decide (k ≤ e.hist.length)

lemma candLt_iff_get (r : LRUKReplacer) (i : Nat) :
    r.candLt i = true ↔ ∃ e, r.entries.get? i = some e ∧ entLt r.k e = true := by
  unfold LRUKReplacer.candLt entLt
  cases h : r.entries.get? i <;> simp

lemma candGe_iff_get (r : LRUKReplacer) (i : Nat) :
    r.candGe i = true ↔ ∃ e, r.entries.get? i = some e ∧ entGe r.k e = true := by
  unfold LRUKReplacer.candGe entGe
  cases h : r.entries.get? i <;> simp

/-- In A-mode (`max_interval = INT64_MAX`, `flag` set), the loop keeps
A-mode and lowers `eariest_time` to the least front among remaining
fewer-than-k candidates. -/
lemma evictLoop_Amode (k curTs : Nat) (hcur : curTs ≤ I64MAX) :
    ∀ (l : List ReplacerEntry) (idx et ch : Nat),
      ∃ et2 ch2, evictLoop k curTs idx l (I64MAX, et, true, ch) = (I64MAX, et2, true, ch2) ∧
        et2 ≤ et ∧
        ((et2 = et ∧ ch2 = ch) ∨ ∃ n e, l.get? n = some e ∧ entLt k e = true ∧
          ch2 = idx + n ∧ et2 = e.front) ∧
        (∀ n e, l.get? n = some e → entLt k e = true → et2 ≤ e.front) := by
  intro l
  induction l with
  | nil =>
    intro idx et ch
    exact ⟨et, ch, rfl, le_refl _, Or.inl ⟨rfl, rfl⟩, by intro n e h; simp at h⟩
  | cons e rest ih =>
    intro idx et ch
    by_cases hskip : (!e.evictable || e.hist.isEmpty) = true
    · obtain ⟨et2, ch2, heq, hle, hch, hall⟩ := ih (idx + 1) et ch
      refine ⟨et2, ch2, ?_, hle, ?_, ?_⟩
      · rw [evictLoop, hskip]; simpa using heq
      · rcases hch with h | ⟨n, e2, h1, h2, h3, h4⟩
        · exact Or.inl h
        · exact Or.inr ⟨n + 1, e2, by simpa using h1, h2, by omega, h4⟩
      · intro n e2 h1 h2
        match n, h1 with
        | 0, h1 =>
          exfalso
          simp only [List.get?_cons_zero, Option.some.injEq] at h1
          subst h1
          unfold entLt at h2
          simp only [Bool.not_eq_true', Bool.or_eq_true, Bool.not_eq_eq_eq_not] at hskip h2
          rcases hskip with h | h <;> simp [h] at h2
        | n + 1, h1 => exact hall n e2 (by simpa using h1) h2
    · -- e is evictable with non-empty history
      simp only [Bool.or_eq_true, Bool.not_eq_true', not_or, Bool.not_eq_false] at hskip
      obtain ⟨hev, hne⟩ := hskip
      by_cases hlt : e.hist.length < k
      · -- a fewer-than-k candidate
        have hcand : entLt k e = true := by unfold entLt; simp [hev, hne, hlt]
        by_cases hf : e.front < et
        · obtain ⟨et2, ch2, heq, hle, hch, hall⟩ := ih (idx + 1) e.front idx
          refine ⟨et2, ch2, ?_, by omega, ?_, ?_⟩
          · rw [evictLoop]; simp [hev, hne, hlt, hf]; simpa using heq
          · rcases hch with ⟨h1, h2⟩ | ⟨n, e2, h1, h2, h3, h4⟩
            · exact Or.inr ⟨0, e, rfl, hcand, by omega, h1⟩
            · exact Or.inr ⟨n + 1, e2, by simpa using h1, h2, by omega, h4⟩
          · intro n e2 h1 h2
            match n, h1 with
            | 0, h1 =>
              simp only [List.get?_cons_zero, Option.some.injEq] at h1
              subst h1; exact hle
            | n + 1, h1 => exact hall n e2 (by simpa using h1) h2
        · obtain ⟨et2, ch2, heq, hle, hch, hall⟩ := ih (idx + 1) et ch
          refine ⟨et2, ch2, ?_, hle, ?_, ?_⟩
          · rw [evictLoop]; simp [hev, hne, hlt, hf]; simpa using heq
          · rcases hch with h | ⟨n, e2, h1, h2, h3, h4⟩
            · exact Or.inl h
            · exact Or.inr ⟨n + 1, e2, by simpa using h1, h2, by omega, h4⟩
          · intro n e2 h1 h2
            match n, h1 with
            | 0, h1 =>
              simp only [List.get?_cons_zero, Option.some.injEq] at h1
              subst h1; omega
            | n + 1, h1 => exact hall n e2 (by simpa using h1) h2
      · -- an at-least-k entry: `curTs - front > INT64_MAX` is impossible
        have hnogt : ¬ (curTs - e.front > I64MAX) := by
          have := Nat.sub_le curTs e.front; omega
        obtain ⟨et2, ch2, heq, hle, hch, hall⟩ := ih (idx + 1) et ch
        refine ⟨et2, ch2, ?_, hle, ?_, ?_⟩
        · rw [evictLoop]; simp [hev, hne, hlt, hnogt]; simpa using heq
        · rcases hch with h | ⟨n, e2, h1, h2, h3, h4⟩
          · exact Or.inl h
          · exact Or.inr ⟨n + 1, e2, by simpa using h1, h2, by omega, h4⟩
        · intro n e2 h1 h2
          match n, h1 with
          | 0, h1 =>
            exfalso
            simp only [List.get?_cons_zero, Option.some.injEq] at h1
            subst h1
            unfold entLt at h2
            simp [hlt] at h2
          | n + 1, h1 => exact hall n e2 (by simpa using h1) h2

/-- When no fewer-than-k candidate remains, the loop stays in B-mode
(`eariest_time = INT64_MAX`) and raises `max_interval` to the greatest
`current_timestamp - front` among at-least-k candidates. -/
lemma evictLoop_Bmode (k curTs : Nat) :
    ∀ (l : List ReplacerEntry) (idx mi ch : Nat) (fl : Bool),
      (∀ e ∈ l, entLt k e = false) →
      (∀ e ∈ l, ∀ t ∈ e.hist, t < curTs) →
      ∃ mi2 ch2 fl2, evictLoop k curTs idx l (mi, I64MAX, fl, ch) = (mi2, I64MAX, fl2, ch2) ∧
        mi ≤ mi2 ∧
        ((mi2 = mi ∧ ch2 = ch) ∨ ∃ n e, l.get? n = some e ∧ entGe k e = true ∧
          ch2 = idx + n ∧ mi2 = curTs - e.front) ∧
        (∀ n e, l.get? n = some e → entGe k e = true → curTs - e.front ≤ mi2) ∧
        (fl = true → fl2 = true) ∧
        (∀ n e, l.get? n = some e → entGe k e = true → fl2 = true) := by
  intro l
  induction l with
  | nil =>
    intro idx mi ch fl _ _
    exact ⟨mi, ch, fl, rfl, le_refl _, Or.inl ⟨rfl, rfl⟩,
      by intro n e h; simp at h, fun h => h, by intro n e h; simp at h⟩
  | cons e rest ih =>
    intro idx mi ch fl hno hts
    have hnoR : ∀ e2 ∈ rest, entLt k e2 = false := fun e2 h2 => hno e2 (List.mem_cons_of_mem _ h2)
    have htsR : ∀ e2 ∈ rest, ∀ t ∈ e2.hist, t < curTs :=
      fun e2 h2 => hts e2 (List.mem_cons_of_mem _ h2)
    by_cases hskip : (!e.evictable || e.hist.isEmpty) = true
    · obtain ⟨mi2, ch2, fl2, heq, hle, hch, hall, hfl, hflc⟩ := ih (idx + 1) mi ch fl hnoR htsR
      have hnotGe : entGe k e = false := by
        unfold entGe
        simp only [Bool.not_eq_true', Bool.or_eq_true, Bool.not_eq_eq_eq_not] at hskip
        rcases hskip with h | h <;> simp [h]
      refine ⟨mi2, ch2, fl2, ?_, hle, ?_, ?_, hfl, ?_⟩
      · rw [evictLoop, hskip]; simpa using heq
      · rcases hch with h | ⟨n, e2, h1, h2, h3, h4⟩
        · exact Or.inl h
        · exact Or.inr ⟨n + 1, e2, by simpa using h1, h2, by omega, h4⟩
      · intro n e2 h1 h2
        match n, h1 with
        | 0, h1 =>
          simp only [List.get?_cons_zero, Option.some.injEq] at h1
          subst h1; simp [hnotGe] at h2
        | n + 1, h1 => exact hall n e2 (by simpa using h1) h2
      · intro n e2 h1 h2
        match n, h1 with
        | 0, h1 =>
          simp only [List.get?_cons_zero, Option.some.injEq] at h1
          subst h1; simp [hnotGe] at h2
        | n + 1, h1 => exact hflc n e2 (by simpa using h1) h2
    · simp only [Bool.or_eq_true, Bool.not_eq_true', not_or, Bool.not_eq_false] at hskip
      obtain ⟨hev, hne⟩ := hskip
      have hlt : ¬ e.hist.length < k := by
        have := hno e (List.mem_cons_self _ _)
        unfold entLt at this
        simp [hev, hne] at this
        omega
      have hcand : entGe k e = true := by unfold entGe; simp [hev, hne]; omega
      have hfront : e.front < curTs := by
        have hmem : e.front ∈ e.hist := by
          unfold ReplacerEntry.front
          cases h : e.hist with
          | nil => rw [h] at hne; simp at hne
          | cons a t => simp [h]
        exact hts e (List.mem_cons_self _ _) _ hmem
      by_cases hgt : curTs - e.front > mi
      · obtain ⟨mi2, ch2, fl2, heq, hle, hch, hall, hfl, hflc⟩ :=
          ih (idx + 1) (curTs - e.front) idx true hnoR htsR
        have hfl2 : fl2 = true := hfl rfl
        refine ⟨mi2, ch2, fl2, ?_, by omega, ?_, ?_, fun _ => hfl2, fun _ _ _ _ => hfl2⟩
        · rw [evictLoop]; simp [hev, hne, hlt, hgt]; simpa using heq
        · rcases hch with ⟨h1, h2⟩ | ⟨n, e2, h1, h2, h3, h4⟩
          · exact Or.inr ⟨0, e, rfl, hcand, by omega, by omega⟩
          · exact Or.inr ⟨n + 1, e2, by simpa using h1, h2, by omega, h4⟩
        · intro n e2 h1 h2
          match n, h1 with
          | 0, h1 =>
            simp only [List.get?_cons_zero, Option.some.injEq] at h1
            subst h1; omega
          | n + 1, h1 => exact hall n e2 (by simpa using h1) h2
      · obtain ⟨mi2, ch2, fl2, heq, hle, hch, hall, hfl, hflc⟩ := ih (idx + 1) mi ch true hnoR htsR
        have hfl2 : fl2 = true := hfl rfl
        refine ⟨mi2, ch2, fl2, ?_, hle, ?_, ?_, fun _ => hfl2, fun _ _ _ _ => hfl2⟩
        · rw [evictLoop]; simp [hev, hne, hlt, hgt]; simpa using heq
        · rcases hch with h | ⟨n, e2, h1, h2, h3, h4⟩
          · exact Or.inl h
          · exact Or.inr ⟨n + 1, e2, by simpa using h1, h2, by omega, h4⟩
        · intro n e2 h1 h2
          match n, h1 with
          | 0, h1 =>
            simp only [List.get?_cons_zero, Option.some.injEq] at h1
            subst h1; omega
          | n + 1, h1 => exact hall n e2 (by simpa using h1) h2

/-- From any B-mode accumulator, if some fewer-than-k candidate remains
the loop switches to A-mode at the first one and ends at the least front
among fewer-than-k candidates. -/
lemma evictLoop_toA (k curTs : Nat) (hcur : curTs ≤ I64MAX) :
    ∀ (l : List ReplacerEntry) (idx mi ch : Nat) (fl : Bool),
      (∀ e ∈ l, ∀ t ∈ e.hist, t < curTs) →
      (∃ e ∈ l, entLt k e = true) →
      ∃ et2 ch2, evictLoop k curTs idx l (mi, I64MAX, fl, ch) = (I64MAX, et2, true, ch2) ∧
        (∃ n e, l.get? n = some e ∧ entLt k e = true ∧ ch2 = idx + n ∧ et2 = e.front) ∧
        (∀ n e, l.get? n = some e → entLt k e = true → et2 ≤ e.front) := by
  intro l
  induction l with
  | nil =>
    intro idx mi ch fl _ hex
    simp at hex
  | cons e rest ih =>
    intro idx mi ch fl hts hex
    have htsR : ∀ e2 ∈ rest, ∀ t ∈ e2.hist, t < curTs :=
      fun e2 h2 => hts e2 (List.mem_cons_of_mem _ h2)
    by_cases hhd : entLt k e = true
    · have hev : e.evictable = true := by unfold entLt at hhd; simp at hhd; exact hhd.1.1
      have hne : e.hist.isEmpty = false := by
        unfold entLt at hhd; simp at hhd; simpa using hhd.1.2
      have hlen : e.hist.length < k := by unfold entLt at hhd; simp at hhd; exact hhd.2
      have hfront : e.front < curTs := by
        have hmem : e.front ∈ e.hist := by
          unfold ReplacerEntry.front
          cases h : e.hist with
          | nil => rw [h] at hne; simp at hne
          | cons a t => simp [h]
        exact hts e (List.mem_cons_self _ _) _ hmem
      have hfr : e.front < I64MAX := by omega
      obtain ⟨et2, ch2, heq, hle, hch, hall⟩ := evictLoop_Amode k curTs hcur rest (idx + 1)
        e.front idx
      refine ⟨et2, ch2, ?_, ?_, ?_⟩
      · rw [evictLoop]; simp [hev, hne, hlen, hfr]; simpa using heq
      · rcases hch with ⟨h1, h2⟩ | ⟨n, e2, h1, h2, h3, h4⟩
        · exact ⟨0, e, rfl, hhd, by omega, h1⟩
        · exact ⟨n + 1, e2, by simpa using h1, h2, by omega, h4⟩
      · intro n e2 h1 h2
        match n, h1 with
        | 0, h1 =>
          simp only [List.get?_cons_zero, Option.some.injEq] at h1
          subst h1; exact hle
        | n + 1, h1 => exact hall n e2 (by simpa using h1) h2
    · have hexR : ∃ e2 ∈ rest, entLt k e2 = true := by
        rcases hex with ⟨e2, hmem, hc⟩
        rcases List.mem_cons.mp hmem with h | h
        · exact absurd (h ▸ hc) hhd
        · exact ⟨e2, h, hc⟩
      by_cases hskip : (!e.evictable || e.hist.isEmpty) = true
      · obtain ⟨et2, ch2, heq, hch, hall⟩ := ih (idx + 1) mi ch fl htsR hexR
        refine ⟨et2, ch2, ?_, ?_, ?_⟩
        · rw [evictLoop, hskip]; simpa using heq
        · rcases hch with ⟨n, e2, h1, h2, h3, h4⟩
          exact ⟨n + 1, e2, by simpa using h1, h2, by omega, h4⟩
        · intro n e2 h1 h2
          match n, h1 with
          | 0, h1 =>
            simp only [List.get?_cons_zero, Option.some.injEq] at h1
            subst h1; exact absurd h2 hhd
          | n + 1, h1 => exact hall n e2 (by simpa using h1) h2
      · simp only [Bool.or_eq_true, Bool.not_eq_true', not_or, Bool.not_eq_false] at hskip
        obtain ⟨hev, hne⟩ := hskip
        have hlen : ¬ e.hist.length < k := by
          unfold entLt at hhd
          simp [hev, hne] at hhd
          omega
        by_cases hgt : curTs - e.front > mi
        · obtain ⟨et2, ch2, heq, hch, hall⟩ := ih (idx + 1) (curTs - e.front) idx true htsR hexR
          refine ⟨et2, ch2, ?_, ?_, ?_⟩
          · rw [evictLoop]; simp [hev, hne, hlen, hgt]; simpa using heq
          · rcases hch with ⟨n, e2, h1, h2, h3, h4⟩
            exact ⟨n + 1, e2, by simpa using h1, h2, by omega, h4⟩
          · intro n e2 h1 h2
            match n, h1 with
            | 0, h1 =>
              simp only [List.get?_cons_zero, Option.some.injEq] at h1
              subst h1; exact absurd h2 hhd
            | n + 1, h1 => exact hall n e2 (by simpa using h1) h2
        · obtain ⟨et2, ch2, heq, hch, hall⟩ := ih (idx + 1) mi ch true htsR hexR
          refine ⟨et2, ch2, ?_, ?_, ?_⟩
          · rw [evictLoop]; simp [hev, hne, hlen, hgt]; simpa using heq
          · rcases hch with ⟨n, e2, h1, h2, h3, h4⟩
            exact ⟨n + 1, e2, by simpa using h1, h2, by omega, h4⟩
          · intro n e2 h1 h2
            match n, h1 with
            | 0, h1 =>
              simp only [List.get?_cons_zero, Option.some.injEq] at h1
              subst h1; exact absurd h2 hhd
            | n + 1, h1 => exact hall n e2 (by simpa using h1) h2

/-- C3: `evict()` returns a frame with fewer than K recorded accesses
(backward K-distance +infinity) whenever such an evictable frame exists,
choosing among them the one with the earliest first access; only if no
evictable frame has fewer than K accesses does it return the evictable
frame whose K-th-most-recent access is oldest.  In particular, with K=2
and three evictable frames after accesses to frames 1,2,3,1,2, `evict()`
returns frame 3. -/
theorem lruk_evict_kdistance_policy (r : LRUKReplacer) (hwf : r.WF) :
    ((∃ i, r.candLt i = true) →
       ∃ i r2, r.evict = some (i, r2) ∧ r.candLt i = true ∧
         ∀ j, r.candLt j = true → r.frontAt i ≤ r.frontAt j) ∧
    ((∀ i, r.candLt i = false) → (∃ i, r.candGe i = true) →
       ∃ i r2, r.evict = some (i, r2) ∧ r.candGe i = true ∧
         ∀ j, r.candGe j = true → r.frontAt i ≤ r.frontAt j) ∧
    lrukS1.evict = some (3, { lrukS1 with
      entries := lrukS1.entries.set 3 ⟨[], false⟩, size := lrukS1.size - 1 }) := by
  obtain ⟨hts, hcur⟩ := hwf
  refine ⟨?_, ?_, by decide⟩
  · rintro ⟨i, hi⟩
    obtain ⟨e, hget, hc⟩ := (candLt_iff_get r i).mp hi
    have hex : ∃ e2 ∈ r.entries, entLt r.k e2 = true := ⟨e, List.get?_mem hget, hc⟩
    obtain ⟨et2, ch2, heq, hch, hall⟩ :=
      evictLoop_toA r.k r.curTs hcur r.entries 0 0 0 false hts hex
    obtain ⟨n, e2, h1, h2, h3, h4⟩ := hch
    have hch2 : ch2 = n := by omega
    rw [hch2] at heq
    refine ⟨n, { r with entries := r.entries.set n ⟨[], false⟩, size := r.size - 1 }, ?_,
      (candLt_iff_get r n).mpr ⟨e2, h1, h2⟩, ?_⟩
    · simp [LRUKReplacer.evict, heq]
    · intro j hj
      obtain ⟨ej, hgj, hcj⟩ := (candLt_iff_get r j).mp hj
      have h5 : r.frontAt n = e2.front := by unfold LRUKReplacer.frontAt; rw [h1]
      have h6 : r.frontAt j = ej.front := by unfold LRUKReplacer.frontAt; rw [hgj]
      rw [h5, h6, ← h4]
      exact hall j ej hgj hcj
  · rintro hnone ⟨i, hi⟩
    obtain ⟨e, hget, hc⟩ := (candGe_iff_get r i).mp hi
    have hno : ∀ e2 ∈ r.entries, entLt r.k e2 = false := by
      intro e2 hmem
      obtain ⟨n, hn⟩ := List.mem_iff_get?.mp hmem
      by_contra hcon
      have : r.candLt n = true :=
        (candLt_iff_get r n).mpr ⟨e2, hn, by simpa using hcon⟩
      rw [hnone n] at this
      exact absurd this (by simp)
    obtain ⟨mi2, ch2, fl2, heq, hle, hch, hall, hfl, hflc⟩ :=
      evictLoop_Bmode r.k r.curTs r.entries 0 0 0 false hno hts
    have hfl2 : fl2 = true := hflc i e hget hc
    subst hfl2
    have hfrlt : ∀ (j : Nat) (ej : ReplacerEntry), r.entries.get? j = some ej →
        entGe r.k ej = true → ej.front < r.curTs := by
      intro j ej hgj hcj
      have hne : ej.hist.isEmpty = false := by
        unfold entGe at hcj; simp at hcj; simpa using hcj.1.2
      have hmem : ej.front ∈ ej.hist := by
        unfold ReplacerEntry.front
        cases h : ej.hist with
        | nil => rw [h] at hne; simp at hne
        | cons a t => simp [h]
      exact hts ej (List.get?_mem hgj) _ hmem
    rcases hch with ⟨h1, h2⟩ | ⟨n, e2, h1, h2, h3, h4⟩
    · exfalso
      have h5 := hall i e hget hc
      have h6 := hfrlt i e hget hc
      omega
    · have hch2 : ch2 = n := by omega
      rw [hch2] at heq
      refine ⟨n, { r with entries := r.entries.set n ⟨[], false⟩, size := r.size - 1 }, ?_,
        (candGe_iff_get r n).mpr ⟨e2, h1, h2⟩, ?_⟩
      · simp [LRUKReplacer.evict, heq]
      · intro j hj
        obtain ⟨ej, hgj, hcj⟩ := (candGe_iff_get r j).mp hj
        have h5 : r.frontAt n = e2.front := by unfold LRUKReplacer.frontAt; rw [h1]
        have h6 : r.frontAt j = ej.front := by unfold LRUKReplacer.frontAt; rw [hgj]
        have h7 := hall j ej hgj hcj
        have h8 := hfrlt j ej hgj hcj
        have h9 := hfrlt n e2 h1 h2
        rw [h5, h6]
        omega

/-- Witness for C3: the S1 scenario satisfies the hypotheses, and the
theorem applies there; frame 3 is the unique fewer-than-K candidate. -/
theorem lruk_evict_kdistance_policy_w :
    lrukS1.WF ∧ (∃ i, lrukS1.candLt i = true) ∧
      (∃ i r2, lrukS1.evict = some (i, r2) ∧ lrukS1.candLt i = true ∧
        ∀ j, lrukS1.candLt j = true → lrukS1.frontAt i ≤ lrukS1.frontAt j) :=
  ⟨by decide, ⟨3, by decide⟩,
    (lruk_evict_kdistance_policy lrukS1 (by decide)).1 ⟨3, by decide⟩⟩

/-! # Buffer pool manager (src/buffer/buffer_pool_manager_instance.cpp)

Page data bytes and the disk are not modelled: `ReadPage`/`WritePage`/
`ResetMemory` only move bytes, which no claim below mentions.  The page
table member `page_table_` is an `ExtendibleHashTable<page_id_t,
frame_id_t>` used only through `Find`/`Insert`/`Remove`; it is modelled
through that interface as an association list. -/

/-- Metadata of one `Page` object in the `pages_` array. -/
structure BPPage where
  pinCount : Int
  isDirty : Bool
  pageId : Nat
deriving Repr, DecidableEq

/-- `BufferPoolManagerInstance` state. -/
structure BufferPoolManager where
  poolSize : Nat
  pages : List BPPage
  pageTable : List (Nat × Nat)
  replacer : LRUKReplacer
  freeList : List Nat
  nextPageId : Nat
deriving Repr, DecidableEq

/-- `page_table_->Find(key, value)`. -/
def ptFind (pt : List (Nat × Nat)) (k : Nat) : Option Nat :=
  (pt.find? (fun p => p.1 == k)).map (·.2)

/-- `page_table_->Insert(key, value)` (overwrites an existing key). -/
def ptInsert (pt : List (Nat × Nat)) (k v : Nat) : List (Nat × Nat) :=
  if (pt.find? (fun p => p.1 == k)).isSome then
    pt.map (fun p => if p.1 == k then (k, v) else p)
  else (k, v) :: pt

/-- `page_table_->Remove(key)`. -/
def ptRemove (pt : List (Nat × Nat)) (k : Nat) : List (Nat × Nat) :=
  pt.filter (fun p => p.1 != k)

/-- Update the page object at a frame index. -/
def updPage (l : List BPPage) (i : Nat) (f : BPPage → BPPage) : List BPPage :=
  match l.get? i with
  | none => l
  | some p => l.set i (f p)

/-- The constructor: every frame on the free list, zeroed metadata. -/
def BufferPoolManager.init (poolSize replacerK : Nat) : BufferPoolManager :=
  { poolSize := poolSize
    pages := List.replicate poolSize ⟨0, false, 0⟩
    pageTable := []
    replacer := LRUKReplacer.init poolSize replacerK
    freeList := List.range poolSize
    nextPageId := 0 }

/-- `BufferPoolManagerInstance::NewPgImp`. -/
def BufferPoolManager.newPg (s : BufferPoolManager) : Option (Nat × BufferPoolManager) :=
  match s.freeList with
  | frame :: fl =>
    let pid := s.nextPageId
    some (pid,
      { s with
        freeList := fl
        pages := updPage s.pages frame (fun p => { p with pinCount := 1, pageId := pid })
        nextPageId := s.nextPageId + 1
        pageTable := ptInsert s.pageTable pid frame
        replacer := (s.replacer.recordAccess frame).setEvictable frame false })
  | [] =>
    match s.replacer.evict with
    | none => none
    | some (frame, rep) =>
      let pid := s.nextPageId
      let old := (s.pages.getD frame ⟨0, false, 0⟩).pageId
      some (pid,
        { s with
          nextPageId := s.nextPageId + 1
          pageTable := ptInsert (ptRemove s.pageTable old) pid frame
          replacer := (rep.recordAccess frame).setEvictable frame false
          pages := updPage s.pages frame (fun p => { p with pinCount := 1, pageId := pid }) })

/-- `BufferPoolManagerInstance::FetchPgImp`.  On the resident branch the
source sets `is_dirty_ = true` unconditionally; on the eviction branch it
neither resets the dirty bit of the reused frame nor sets the pin count
to 1 (it increments it).  Both are kept as written. -/
def BufferPoolManager.fetchPg (s : BufferPoolManager) (pid : Nat) :
    Option BufferPoolManager :=
  match ptFind s.pageTable pid with
  | some frame =>
    some { s with
      replacer := (s.replacer.recordAccess frame).setEvictable frame false
      pages := updPage s.pages frame
        (fun p => { p with isDirty := true, pinCount := p.pinCount + 1 }) }
  | none =>
    match s.freeList with
    | frame :: fl =>
      some { s with
        freeList := fl
        pages := updPage s.pages frame (fun p => { p with pinCount := 1, pageId := pid })
        pageTable := ptInsert s.pageTable pid frame
        replacer := (s.replacer.recordAccess frame).setEvictable frame false }
    | [] =>
      match s.replacer.evict with
      | none => none
      | some (frame, rep) =>
        let old := (s.pages.getD frame ⟨0, false, 0⟩).pageId
        some { s with
          pageTable := ptInsert (ptRemove s.pageTable old) pid frame
          replacer := (rep.recordAccess frame).setEvictable frame false
          pages := updPage s.pages frame
            (fun p => { p with pinCount := p.pinCount + 1, pageId := pid }) }

/-- `BufferPoolManagerInstance::UnpinPgImp`. -/
def BufferPoolManager.unpinPg (s : BufferPoolManager) (pid : Nat) (isDirty : Bool) :
    Bool × BufferPoolManager :=
  match ptFind s.pageTable pid with
  | none => (false, s)
  | some frame =>
    let p := s.pages.getD frame ⟨0, false, 0⟩
    if p.pinCount ≤ 0 then (false, s)
    else
      let d := if !p.isDirty then isDirty else p.isDirty
      let pages2 :=
        updPage s.pages frame (fun q => { q with isDirty := d, pinCount := q.pinCount - 1 })
      let s2 := { s with pages := pages2 }
      if p.pinCount - 1 = 0 then
        (true, { s2 with replacer := s2.replacer.setEvictable frame true })
      else (true, s2)

/-- `BufferPoolManagerInstance::DeletePgImp`. -/
def BufferPoolManager.deletePg (s : BufferPoolManager) (pid : Nat) :
    Bool × BufferPoolManager :=
  match ptFind s.pageTable pid with
  | none => (true, s)
  | some frame =>
    let p := s.pages.getD frame ⟨0, false, 0⟩
    if p.pinCount > 0 then (false, s)
    else
      (true,
        { s with
          pages := updPage s.pages frame (fun q => { q with isDirty := false, pageId := 0 })
          pageTable := ptRemove s.pageTable pid
          replacer := ((s.replacer.setEvictable frame true).remove frame)
          freeList := s.freeList ++ [frame] })

/-- A one-page pool with its page pinned: `init 2 2` followed by `new_page`. -/
def bpmPinned : BufferPoolManager :=
  (((BufferPoolManager.init 2 2).newPg).map Prod.snd).getD (BufferPoolManager.init 2 2)

/-- C1: the claim says `fetch_page` leaves the dirty bit unchanged and
only `unpin(dirty=true)` sets it.  The source instead executes
`pages_[frame_id].is_dirty_ = true` on every resident fetch
(src/buffer lru_k_replacer.cpp file, `FetchPgImp`): starting from a
fresh pool, `new_page` yields page 0 with a clean dirty bit, and
fetching that resident page flips the bit to dirty.  This evaluates the
embedded code at that failing input. -/
theorem fetchPg_flips_clean_dirty_bit :
    ∃ s1, (BufferPoolManager.init 2 2).newPg = some (0, s1) ∧
      (s1.pages.getD 0 ⟨0, false, 0⟩).isDirty = false ∧
      ∃ s2, s1.fetchPg 0 = some s2 ∧
        (s2.pages.getD 0 ⟨0, false, 0⟩).isDirty = true :=
  ⟨_, rfl, by decide, _, rfl, by decide⟩

/-- C10: `delete(p)` on a page absent from the page table returns true
and leaves the whole state unchanged; `delete` returns false exactly
when the page is resident with positive pin count. -/
theorem deletePg_nonresident_noop (s : BufferPoolManager) (pid : Nat) :
    (ptFind s.pageTable pid = none → s.deletePg pid = (true, s)) ∧
    ((s.deletePg pid).1 = false ↔
      ∃ frame, ptFind s.pageTable pid = some frame ∧
        (s.pages.getD frame ⟨0, false, 0⟩).pinCount > 0) := by
  constructor
  · intro h
    unfold BufferPoolManager.deletePg
    rw [h]
  · cases h : ptFind s.pageTable pid with
    | none =>
      unfold BufferPoolManager.deletePg
      rw [h]
      simp [h]
    | some f =>
      unfold BufferPoolManager.deletePg
      rw [h]
      by_cases hpin : (s.pages.getD f ⟨0, false, 0⟩).pinCount > 0
      · simp only [h, hpin, if_true, Option.some.injEq]
        constructor
        · intro _; exact ⟨f, rfl, hpin⟩
        · intro _; trivial
      · simp only [h, hpin, if_false, Option.some.injEq]
        constructor
        · intro hc; simp at hc
        · rintro ⟨fr, hfr, hp⟩
          cases hfr
          exact absurd hp hpin

/-- Witness for C10: a non-resident delete on a fresh pool and a
refused delete of a pinned page. -/
theorem deletePg_nonresident_noop_w :
    (BufferPoolManager.init 2 2).deletePg 7 = (true, BufferPoolManager.init 2 2) ∧
    (bpmPinned.deletePg 0).1 = false :=
  ⟨(deletePg_nonresident_noop (BufferPoolManager.init 2 2) 7).1 (by decide),
   (deletePg_nonresident_noop bpmPinned 0).2.mpr ⟨0, by decide, by decide⟩⟩

/-! # Extendible hash table (src/container/hash/extendible_hash_table.cpp)

Instantiated at `ExtendibleHashTable<int, int>`-style keys and values;
`std::hash<int>` is the identity, as the spec's scenario assumes.
Directory slots share bucket objects (`shared_ptr`); sharing is modelled
by an arena `buckets` with the directory holding arena indices, so a
mutation through one slot is visible through every alias. -/

/-- One `Bucket`: capacity `size_`, `depth_`, and `list_`
(`emplace_front` order: newest first). -/
structure EHBucket where
  size : Nat
  depth : Nat
  items : List (Nat × Nat)
deriving Repr, DecidableEq

/-- `ExtendibleHashTable` state. -/
structure EHT where
  bucketSize : Nat
  globalDepth : Nat
  numBuckets : Nat
  buckets : List EHBucket
  dir : List Nat
deriving Repr, DecidableEq

/-- The constructor: one empty bucket of depth 0, `num_buckets_ = 1`. -/
def EHT.init (bucketSize : Nat) : EHT :=
  ⟨bucketSize, 0, 1, [⟨bucketSize, 0, []⟩], [0]⟩

/-- `IndexOf(key)`: `hash(key) & ((1 << global_depth) - 1)`; masking the
identity hash by a low-bit mask is `% 2 ^ global_depth` on naturals. -/
def EHT.indexOf (t : EHT) (k : Nat) : Nat := k % 2 ^ t.globalDepth

/-- `Bucket::Insert`: overwrite an existing key, else prepend when not
full, else report failure. -/
def EHBucket.insert (b : EHBucket) (k v : Nat) : Bool × EHBucket :=
  if (b.items.find? (fun p => p.1 == k)).isSome then
    (true, { b with items := b.items.map (fun p => if p.1 == k then (k, v) else p) })
  else if b.items.length < b.size then (true, { b with items := (k, v) :: b.items })
  else (false, b)

/-- `Bucket::IsFull`. -/
def EHBucket.isFull (b : EHBucket) : Bool := b.size ≤ b.items.length

/-- The directory-rewrite loop of `Insert`: every slot `i` congruent to
the key modulo `local_mask` whose bit `local_depth` is 0 is pointed at
the freshly split bucket. -/
def ehtUpdateDir (dir : List Nat) (k lmask ld newIdx : Nat) : List Nat :=
  dir.mapIdx (fun i b =>
    if i % lmask == k % lmask && (i >>> ld) % 2 == 0 then newIdx else b)

/-- The `while (dir_[index]->IsFull())` split loop of
`ExtendibleHashTable::Insert`, with explicit fuel.  Each iteration of
the source loop raises the target bucket's local depth by one, so for
the identity hash `64` iterations cover every scenario evaluated below
(the loop runs at most three times there). -/
def ehtInsertLoop : Nat → EHT → Nat → Nat → EHT
  | 0, t, _, _ => t
  | fuel + 1, t, k, v =>
    let index := t.indexOf k
    let bIdx := t.dir.getD index 0
    let b := t.buckets.getD bIdx ⟨0, 0, []⟩
    if b.isFull then
      let ld := b.depth
      let lmask := 2 ^ ld
      let t1 :=
        if ld == t.globalDepth then
          { t with dir := t.dir ++ t.dir, globalDepth := t.globalDepth + 1 }
        else t
      let keepItems := b.items.filter (fun p => (p.1 >>> ld) % 2 == 1)
      let movedItems := b.items.filter (fun p => (p.1 >>> ld) % 2 == 0)
      let newIdx := t1.buckets.length
      let buckets2 :=
        (t1.buckets.set bIdx ⟨b.size, ld + 1, keepItems⟩) ++ [⟨t.bucketSize, ld + 1, movedItems⟩]
      let dir2 := ehtUpdateDir t1.dir k lmask ld newIdx
      ehtInsertLoop fuel
        { t1 with buckets := buckets2, dir := dir2, numBuckets := t1.numBuckets + 1 } k v
    else
      let res := b.insert k v
      { t with buckets := t.buckets.set bIdx res.2 }

/-- `ExtendibleHashTable::Insert`. -/
def EHT.insert (t : EHT) (k v : Nat) : EHT :=
  let index := t.indexOf k
  let bIdx := t.dir.getD index 0
  let b := t.buckets.getD bIdx ⟨0, 0, []⟩
  let res := b.insert k v
  if res.1 then { t with buckets := t.buckets.set bIdx res.2 }
  else ehtInsertLoop 64 t k v

/-- `GetLocalDepth(dir_index)`. -/
def EHT.localDepth (t : EHT) (i : Nat) : Nat :=
  (t.buckets.getD (t.dir.getD i 0) ⟨0, 0, []⟩).depth

/-- The S2 scenario: bucket size 2, insert 15, 14, 23, 11, 9. -/
def ehtS2 : EHT :=
  (((((EHT.init 2).insert 15 0).insert 14 1).insert 23 2).insert 11 3).insert 9 4

/-- C7: after inserting 15, 14, 23, 11, 9 into a table with bucket size
2 and the identity hash, there are 4 distinct buckets
(`GetNumBuckets() == 4`, and the directory references 4 distinct bucket
objects), and the buckets behind directory slots 3 and 7 both have
local depth 3. -/
theorem eht_insert_multiple_split :
    ehtS2.numBuckets = 4 ∧ ehtS2.dir.dedup.length = 4 ∧
      ehtS2.localDepth 3 = 3 ∧ ehtS2.localDepth 7 = 3 := by decide

/-! # Lock manager (lock_manager.cpp)

One lock request queue guards one resource (a table oid or a row rid);
the granted-set invariant is per queue. -/

/-- The five lock modes. -/
inductive LockMode where
  | IS | IX | S | SIX | X
deriving Repr, DecidableEq

instance : BEq LockMode := ⟨fun a b => decide (a = b)⟩

/-- `LockManager::CheckLock(lock_mode_, lock_mode)`: is a request of
mode `req` compatible with an already granted request of mode `held`? -/
def CheckLock (held req : LockMode) : Bool :=
  if held == .X then false
  else if held == .SIX && !(req == .IS) then false
  else if held == .S && !(req == .S) && !(req == .IS) then false
  else if held == .IX && !(req == .IX) && !(req == .IS) then false
  else if held == .IS && req == .X then false
  else true

/-- `CheckLock` agrees with the standard compatibility matrix
(IS conflicts with X; S with X, IX, SIX; IX with S, X, SIX;
SIX with all but IS; X with everything) and is symmetric. -/
lemma CheckLock_symm (a b : LockMode) : CheckLock a b = CheckLock b a := by
  cases a <;> cases b <;> decide

/-- One `LockRequest` (txn id, mode, granted flag); the oid/rid is the
queue's identity and not repeated per request. -/
structure LockRequest where
  txnId : Nat
  mode : LockMode
  granted : Bool
deriving Repr, DecidableEq

/-- Inner walk of `GrantLock`'s second loop: request `i` (ungranted) must
be compatible with every request queued before it; the walk answers true
once the request of `tid` is reached. -/
def grantLockGo (queue : List LockRequest) (tid : Nat) :
    Nat → List LockRequest → Bool
  | _, [] => false
  | idx, i :: rest =>
    if !i.granted && (queue.take idx).any (fun j => !CheckLock i.mode j.mode) then false
    else if i.txnId == tid then true
    else grantLockGo queue tid (idx + 1) rest

/-- `LockManager::GrantLock`: the request of `tid` with mode `mode` is
grantable iff it is compatible with every granted request and every
earlier-queued waiter is compatible with its own prefix up to `tid`'s
position. -/
def grantLock (queue : List LockRequest) (mode : LockMode) (tid : Nat) : Bool :=
  if queue.any (fun i => i.granted && !CheckLock i.mode mode) then false
  else grantLockGo queue tid 0 queue

/-- A `LockRequestQueue`: FIFO request list plus the `upgrading_` marker
(`none` = `INVALID_TXN_ID`). -/
structure LockRequestQueue where
  requests : List LockRequest
  upgrading : Option Nat
deriving Repr, DecidableEq

/-- One queue transition performed under the queue latch by
`LockTable`/`LockRow`/`UnlockTable`/`UnlockRow`:
* `newRequest` — step 4 of `LockTable`/`LockRow` appends an ungranted
  request;
* `upgrade` — the upgrade path erases the txn's old request, marks
  `upgrading_` and appends the fresh ungranted request;
* `grant` — the wait loop exits when `GrantLock` answers true and sets
  `granted_ = true`;
* `erase` — `UnlockTable`/`UnlockRow` erase a released request, and the
  aborted-wakeup path erases the txn's own requests;
* `clearUpgrading` / `setUpgrading` — the `upgrading_` bookkeeping. -/
inductive QueueStep : LockRequestQueue → LockRequestQueue → Prop where
  | newRequest (q : LockRequestQueue) (tid : Nat) (mode : LockMode) :
      QueueStep q ⟨q.requests ++ [⟨tid, mode, false⟩], q.upgrading⟩
  | upgrade (q : LockRequestQueue) (tid : Nat) (mode : LockMode) (idx : Nat) :
      QueueStep q ⟨(q.requests.eraseIdx idx) ++ [⟨tid, mode, false⟩], some tid⟩
  | grant (q : LockRequestQueue) (idx : Nat) (r : LockRequest)
      (h : q.requests.get? idx = some r)
      (hg : grantLock q.requests r.mode r.txnId = true) :
      QueueStep q ⟨q.requests.set idx ⟨r.txnId, r.mode, true⟩, q.upgrading⟩
  | erase (q : LockRequestQueue) (idx : Nat) :
      QueueStep q ⟨q.requests.eraseIdx idx, q.upgrading⟩
  | clearUpgrading (q : LockRequestQueue) :
      QueueStep q ⟨q.requests, none⟩
  | setUpgrading (q : LockRequestQueue) (tid : Nat) :
      QueueStep q ⟨q.requests, some tid⟩

/-- Reachable queue states: the queue is created empty and evolves by
`QueueStep`s. -/
inductive QueueReach : LockRequestQueue → Prop where
  | init : QueueReach ⟨[], none⟩
  | step {q q2 : LockRequestQueue} : QueueReach q → QueueStep q q2 → QueueReach q2

/-- Pairwise compatibility of the granted requests of a queue. -/
def GrantedOK (l : List LockRequest) : Prop :=
  (l.filter (fun r => r.granted)).Pairwise
    (fun a b => CheckLock a.mode b.mode = true ∧ CheckLock b.mode a.mode = true)

lemma grantedOK_sublist {l l2 : List LockRequest} (h : l2.Sublist l) (hok : GrantedOK l) :
    GrantedOK l2 :=
  (hok.sublist (h.filter _))

lemma grantLock_granted_compat {queue : List LockRequest} {mode : LockMode} {tid : Nat}
    (h : grantLock queue mode tid = true) :
    ∀ g ∈ queue, g.granted = true → CheckLock g.mode mode = true := by
  unfold grantLock at h
  by_cases hany : queue.any (fun i => i.granted && !CheckLock i.mode mode) = true
  · rw [if_pos hany] at h; exact absurd h (by simp)
  · intro g hg hgr
    rw [List.any_eq_true] at hany
    push_neg at hany
    have := hany g hg
    simp [hgr] at this
    exact this

lemma grantedOK_append_ungranted (l : List LockRequest) (tid : Nat) (mode : LockMode)
    (h : GrantedOK l) : GrantedOK (l ++ [⟨tid, mode, false⟩]) := by
  unfold GrantedOK at *
  rw [List.filter_append]
  simpa using h

lemma grantedOK_set_grant :
    ∀ (l : List LockRequest) (idx : Nat) (r : LockRequest),
      l.get? idx = some r →
      (∀ g ∈ l, g.granted = true → CheckLock g.mode r.mode = true) →
      GrantedOK l →
      GrantedOK (l.set idx ⟨r.txnId, r.mode, true⟩) := by
  intro l
  induction l with
  | nil => intro idx r h; simp at h
  | cons a t ih =>
    intro idx r hget hcomp hok
    match idx, hget with
    | 0, hget =>
      simp only [List.get?_cons_zero, Option.some.injEq] at hget
      cases hget
      unfold GrantedOK at *
      show (List.filter _ (⟨a.txnId, a.mode, true⟩ :: t)).Pairwise _
      rw [List.filter_cons]
      simp only [if_pos rfl]
      have htail : (t.filter (fun r => r.granted)).Pairwise
          (fun a b => CheckLock a.mode b.mode = true ∧ CheckLock b.mode a.mode = true) :=
        grantedOK_sublist (List.sublist_cons_self a t) hok
      refine List.Pairwise.cons ?_ htail
      intro b hb
      have hbt : b ∈ t := List.mem_of_mem_filter hb
      have hbg : b.granted = true := List.of_mem_filter hb
      have h1 : CheckLock b.mode a.mode = true :=
        hcomp b (List.mem_cons_of_mem _ hbt) hbg
      exact ⟨by rw [CheckLock_symm]; exact h1, h1⟩
    | n + 1, hget =>
      simp only [List.get?_cons_succ] at hget
      have hcompT : ∀ g ∈ t, g.granted = true → CheckLock g.mode r.mode = true :=
        fun g hg => hcomp g (List.mem_cons_of_mem _ hg)
      have hokT : GrantedOK t := grantedOK_sublist (List.sublist_cons_self a t) hok
      have ihT := ih n r hget hcompT hokT
      unfold GrantedOK at *
      show (List.filter _ (a :: t.set n ⟨r.txnId, r.mode, true⟩)).Pairwise _
      rw [List.filter_cons]
      by_cases hag : a.granted = true
      · simp only [hag, if_pos rfl]
        refine List.Pairwise.cons ?_ ihT
        intro b hb
        have hbmem : b ∈ t.set n ⟨r.txnId, r.mode, true⟩ := List.mem_of_mem_filter hb
        rcases List.mem_or_eq_of_mem_set hbmem with hbt | hbr
        · have hbg : b.granted = true := List.of_mem_filter hb
          have hpair := hok
          rw [List.filter_cons] at hpair
          simp only [hag, if_pos rfl] at hpair
          exact (List.pairwise_cons.mp hpair).1 b (List.mem_filter.mpr ⟨hbt, by simp [hbg]⟩)
        · subst hbr
          have hck : CheckLock a.mode r.mode = true :=
            hcomp a (List.mem_cons_self a t) hag
          exact ⟨hck, by rw [CheckLock_symm]; exact hck⟩
      · simp only [Bool.not_eq_true] at hag
        simp only [hag]
        simp only [Bool.false_eq_true, if_false]
        exact ihT

/-- C5: in every reachable state of a lock request queue, the granted
set never contains two requests with incompatible modes under the
standard compatibility matrix. -/
theorem lock_queue_no_incompatible_grants (q : LockRequestQueue) (h : QueueReach q) :
    GrantedOK q.requests := by
  induction h with
  | init => unfold GrantedOK; simp
  | step hr hs ih =>
    cases hs with
    | newRequest tid mode => exact grantedOK_append_ungranted _ tid mode ih
    | upgrade tid mode idx =>
      exact grantedOK_append_ungranted _ tid mode
        (grantedOK_sublist (List.eraseIdx_sublist _ idx) ih)
    | grant idx r hget hg =>
      exact grantedOK_set_grant _ idx r hget (grantLock_granted_compat hg) ih
    | erase idx => exact grantedOK_sublist (List.eraseIdx_sublist _ idx) ih
    | clearUpgrading => exact ih
    | setUpgrading tid => exact ih

/-- Witness for C5: a queue reached by enqueue-grant-enqueue-grant of an
IS and an IX request satisfies the invariant. -/
theorem lock_queue_no_incompatible_grants_w :
    QueueReach ⟨[⟨1, LockMode.IS, true⟩, ⟨2, LockMode.IX, true⟩], none⟩ ∧
      GrantedOK [⟨1, LockMode.IS, true⟩, ⟨2, LockMode.IX, true⟩] := by
  have h1 : QueueReach ⟨[⟨1, .IS, false⟩], none⟩ :=
    QueueReach.step QueueReach.init (QueueStep.newRequest ⟨[], none⟩ 1 .IS)
  have h2 : QueueReach ⟨[⟨1, .IS, true⟩], none⟩ :=
    QueueReach.step h1 (QueueStep.grant _ 0 ⟨1, .IS, false⟩ rfl (by decide))
  have h3 : QueueReach ⟨[⟨1, .IS, true⟩, ⟨2, .IX, false⟩], none⟩ :=
    QueueReach.step h2 (QueueStep.newRequest _ 2 .IX)
  have h4 : QueueReach ⟨[⟨1, .IS, true⟩, ⟨2, .IX, true⟩], none⟩ :=
    QueueReach.step h3 (QueueStep.grant _ 1 ⟨2, .IX, false⟩ rfl (by decide))
  exact ⟨h4, lock_queue_no_incompatible_grants _ h4⟩

/-- Transaction states. -/
inductive TxnState where
  | Growing | Shrinking | Committed | Aborted
deriving Repr, DecidableEq

instance : BEq TxnState := ⟨fun a b => decide (a = b)⟩

/-- Isolation levels. -/
inductive IsoLevel where
  | ReadUncommitted | ReadCommitted | RepeatableRead
deriving Repr, DecidableEq

instance : BEq IsoLevel := ⟨fun a b => decide (a = b)⟩

/-- The abort reasons thrown by the lock manager. -/
inductive AbortReason where
  | LockOnShrinking
  | LockSharedOnReadUncommitted
  | UpgradeConflict
  | IncompatibleUpgrade
  | AttemptedIntentionLockOnRow
  | AttemptedUnlockButNoLockHeld
  | TableUnlockedBeforeUnlockingRows
  | TableLockNotPresent
deriving Repr, DecidableEq

/-- The transaction object fields the lock manager reads and writes:
id, state, isolation level, and the per-mode lock sets (row sets keyed
by table oid). -/
structure Txn where
  id : Nat
  state : TxnState
  iso : IsoLevel
  sRowLockSet : List (Nat × List Nat)
  xRowLockSet : List (Nat × List Nat)
  sTableLockSet : List Nat
  xTableLockSet : List Nat
  isTableLockSet : List Nat
  ixTableLockSet : List Nat
  sixTableLockSet : List Nat
deriving Repr, DecidableEq

/-- `unordered_map` lookup. -/
def alookup {α : Type} (m : List (Nat × α)) (k : Nat) : Option α :=
  (m.find? (fun p => p.1 == k)).map (·.2)

/-- `(*set)[oid]`: `operator[]` yields the empty set for a missing key. -/
def rowsAt (m : List (Nat × List Nat)) (oid : Nat) : List Nat :=
  (alookup m oid).getD []

/-- `LockManager::SetState`: under repeatable-read, releasing S or X
moves the transaction to shrinking; otherwise only releasing X does.
Aborted and committed transactions are left alone. -/
def lmSetState (txn : Txn) (iso : IsoLevel) (mode : LockMode) : Txn :=
  if txn.state == .Aborted || txn.state == .Committed then txn
  else if iso == .RepeatableRead && (mode == .X || mode == .S) then
    { txn with state := .Shrinking }
  else if mode == .X then { txn with state := .Shrinking }
  else txn

/-- `LockManager::TableLockRemove`. -/
def tableLockRemove (txn : Txn) (mode : LockMode) (oid : Nat) : Txn :=
  match mode with
  | .X => { txn with xTableLockSet := txn.xTableLockSet.filter (fun o => o != oid) }
  | .IX => { txn with ixTableLockSet := txn.ixTableLockSet.filter (fun o => o != oid) }
  | .SIX => { txn with sixTableLockSet := txn.sixTableLockSet.filter (fun o => o != oid) }
  | .IS => { txn with isTableLockSet := txn.isTableLockSet.filter (fun o => o != oid) }
  | .S => { txn with sTableLockSet := txn.sTableLockSet.filter (fun o => o != oid) }

/-- `LockManager::UnlockTable` over the table lock map: returns the
updated transaction, the updated map, and either the abort reason
thrown or the boolean result. -/
def unlockTable (tmap : List (Nat × LockRequestQueue)) (txn : Txn) (oid : Nat) :
    Txn × List (Nat × LockRequestQueue) × Except AbortReason Bool :=
  match alookup tmap oid with
  | none => ({ txn with state := .Aborted }, tmap, .error .AttemptedUnlockButNoLockHeld)
  | some que =>
    if !(rowsAt txn.xRowLockSet oid).isEmpty then
      ({ txn with state := .Aborted }, tmap, .error .TableUnlockedBeforeUnlockingRows)
    else if !(rowsAt txn.sRowLockSet oid).isEmpty then
      ({ txn with state := .Aborted }, tmap, .error .TableUnlockedBeforeUnlockingRows)
    else
      match que.requests.find? (fun lr => lr.granted && lr.txnId == txn.id) with
      | none => ({ txn with state := .Aborted }, tmap, .error .AttemptedUnlockButNoLockHeld)
      | some lr =>
        let txn2 := lmSetState txn txn.iso lr.mode
        let que2 : LockRequestQueue :=
          ⟨que.requests.eraseP (fun lr2 => lr2.granted && lr2.txnId == txn.id),
           if que.upgrading == some txn.id then none else que.upgrading⟩
        let txn3 := tableLockRemove txn2 lr.mode oid
        (txn3, tmap.map (fun p => if p.1 == oid then (oid, que2) else p), .ok true)

/-- C9: `unlock_table(t, oid)` fails with
`TABLE_UNLOCKED_BEFORE_UNLOCKING_ROWS` when the transaction still holds
a row lock on that table (given the table's queue exists, which holding
a row lock guarantees), and fails with
`ATTEMPTED_UNLOCK_BUT_NO_LOCK_HELD` when it holds no granted table lock
on that oid; both failures set the transaction state to Aborted before
the error surfaces. -/
theorem unlockTable_failure_modes (tmap : List (Nat × LockRequestQueue)) (txn : Txn)
    (oid : Nat) :
    ((alookup tmap oid).isSome = true →
      ((rowsAt txn.xRowLockSet oid).isEmpty = false ∨
        (rowsAt txn.sRowLockSet oid).isEmpty = false) →
      (unlockTable tmap txn oid).1.state = .Aborted ∧
        (unlockTable tmap txn oid).2.2 = .error .TableUnlockedBeforeUnlockingRows) ∧
    ((rowsAt txn.xRowLockSet oid).isEmpty = true →
      (rowsAt txn.sRowLockSet oid).isEmpty = true →
      (∀ que, alookup tmap oid = some que →
        que.requests.find? (fun lr => lr.granted && lr.txnId == txn.id) = none) →
      (unlockTable tmap txn oid).1.state = .Aborted ∧
        (unlockTable tmap txn oid).2.2 = .error .AttemptedUnlockButNoLockHeld) := by
  constructor
  · intro hsome hrow
    unfold unlockTable
    cases hq : alookup tmap oid with
    | none => rw [hq] at hsome; simp at hsome
    | some que =>
      rcases hrow with hx | hs
      · simp [hx]
      · by_cases hx2 : (rowsAt txn.xRowLockSet oid).isEmpty = false
        · simp [hx2]
        · simp only [Bool.not_eq_false] at hx2
          simp [hx2, hs]
  · intro hx hs hnog
    unfold unlockTable
    cases hq : alookup tmap oid with
    | none => exact ⟨rfl, rfl⟩
    | some que =>
      have hfind := hnog que hq
      simp [hx, hs, hfind]

/-- A transaction holding S on table 7 and a shared row lock on it. -/
def txnRowHolder : Txn :=
  ⟨1, .Growing, .RepeatableRead, [(7, [5])], [], [7], [], [], [], []⟩

/-- A transaction holding nothing. -/
def txnNoLock : Txn :=
  ⟨2, .Growing, .RepeatableRead, [], [], [], [], [], [], []⟩

/-- Table 7's queue: txn 1 granted S. -/
def tmapS : List (Nat × LockRequestQueue) := [(7, ⟨[⟨1, .S, true⟩], none⟩)]

/-- Witness for C9: txn 1 still holds a row lock on table 7 and gets
`TABLE_UNLOCKED_BEFORE_UNLOCKING_ROWS`; txn 2 holds no table lock and
gets `ATTEMPTED_UNLOCK_BUT_NO_LOCK_HELD`; both end Aborted. -/
theorem unlockTable_failure_modes_w :
    ((unlockTable tmapS txnRowHolder 7).1.state = .Aborted ∧
      (unlockTable tmapS txnRowHolder 7).2.2 = .error .TableUnlockedBeforeUnlockingRows) ∧
    ((unlockTable tmapS txnNoLock 7).1.state = .Aborted ∧
      (unlockTable tmapS txnNoLock 7).2.2 = .error .AttemptedUnlockButNoLockHeld) :=
  ⟨(unlockTable_failure_modes tmapS txnRowHolder 7).1 (by decide) (Or.inr (by decide)),
   (unlockTable_failure_modes tmapS txnNoLock 7).2 (by decide) (by decide)
     (by intro que hq; cases hq; rfl)⟩

/-- `waits_for_[now]`: successor list of a node (empty when absent). -/
def wfSucc (g : List (Nat × List Nat)) (n : Nat) : List Nat :=
  ((g.find? (fun p => p.1 == n)).map (·.2)).getD []

/-- The recursive lambda `dfs` of `LockManager::HasCycle`: push `now`
onto `txn_set` and `tmp`, then run `std::any_of` over the successors —
an already-visited successor reports a cycle, otherwise recurse, with
set mutations persisting left to right (the fold short-circuits once
true, like `any_of`).  Fuel bounds only the recursion depth; the
`txn_set` membership test stops revisits, so depth never exceeds the
number of distinct nodes and `g.length + 2` (used below) is ample. -/
def lmDfs (g : List (Nat × List Nat)) : Nat → Nat → List Nat → List Nat →
    Bool × List Nat × List Nat
  | 0, now, ts, tm => (false, now :: ts, now :: tm)
  | fuel + 1, now, ts, tm =>
    (wfSucc g now).foldl
      (fun acc it =>
        match acc with
        | (true, ts2, tm2) => (true, ts2, tm2)
        | (false, ts2, tm2) =>
          if ts2.contains it then (true, ts2, tm2)
          else lmDfs g fuel it ts2 tm2)
      (false, now :: ts, now :: tm)

/-- The root loop of `HasCycle`: skip roots already in `tmp`, clear
`txn_set` between failed roots, return the visited `txn_set` when a
cycle is found. -/
def lmHasCycleLoop (g : List (Nat × List Nat)) :
    List (Nat × List Nat) → List Nat → Option (List Nat)
  | [], _ => none
  | (k, _) :: rest, tmp =>
    if tmp.contains k then lmHasCycleLoop g rest tmp
    else
      match lmDfs g (g.length + 2) k [] tmp with
      | (true, ts, _) => some ts
      | (false, _, tmp2) => lmHasCycleLoop g rest tmp2

/-- `LockManager::HasCycle`: when the DFS finds a cycle, the reported
victim is the numerically largest id in `txn_set` — the whole set of
nodes visited by that root's exploration, not just the cycle. -/
def lmHasCycle (g : List (Nat × List Nat)) : Option Nat :=
  (lmHasCycleLoop g g []).map (fun ts => ts.foldl Nat.max 0)

/-- Wait-for graph: txn 5 waits for txn 1 (edge 5 → 1), txns 1 and 2
wait for each other (1 → 2 → 1); the map iterates 5 first. -/
def wfG0 : List (Nat × List Nat) := [(5, [1]), (1, [2]), (2, [1])]

/-- An integer `Value` or null. -/
inductive Value where
  | int (n : Int)
  | null
deriving Repr, DecidableEq

/-- A tuple: one value per column. -/
abbrev Tuple := List Value

/-- The aggregation types of `AggregationType`. -/
inductive AggType where
  | CountStar | Count | Sum | Min | Max
deriving Repr, DecidableEq

/-- Modelled from the spec: the aggregation hash table's per-type
combiner (`InsertCombine` lives in aggregation_executor.h, which is not
under src/): `CountStar` counts rows, `Count` counts non-null inputs,
`Sum` adds, `Min`/`Max` keep the extreme, with null absorbed by the
first non-null input. -/
def aggCombine : AggType → Value → Value → Value
  | .CountStar, acc, _ =>
    match acc with
    | .int n => .int (n + 1)
    | .null => .int 1
  | .Count, acc, v =>
    match v with
    | .null => acc
    | .int _ => match acc with
      | .int n => .int (n + 1)
      | .null => .int 1
  | .Sum, acc, v =>
    match acc, v with
    | .int a, .int b => .int (a + b)
    | .null, .int b => .int b
    | a, .null => a
  | .Min, acc, v =>
    match acc, v with
    | .int a, .int b => .int (min a b)
    | .null, .int b => .int b
    | a, .null => a
  | .Max, acc, v =>
    match acc, v with
    | .int a, .int b => .int (max a b)
    | .null, .int b => .int b
    | a, .null => a

/-- Modelled from the spec: `InsertCombine` — group rows by key,
combining each aggregate column. -/
def insertCombine (aggTypes : List AggType) (aht : List (List Value × List Value))
    (k : List Value) (v : List Value) : List (List Value × List Value) :=
  match alookup2 aht k with
  | none => aht ++ [(k, (aggTypes.zip v).map (fun p => aggCombine p.1 .null p.2))]
  | some _ =>
    aht.map (fun p =>
      if p.1 = k then
        (k, (aggTypes.zip (p.2.zip v)).map (fun q => aggCombine q.1 q.2.1 q.2.2))
      else p)
where
  alookup2 (m : List (List Value × List Value)) (key : List Value) :
      Option (List Value) :=
    (m.find? (fun p => p.1 == key)).map (·.2)

/-- The initial-value row of `AggregationExecutor::Next` on an empty
table with no group-bys: 0 for `CountStarAggregate`, a typed null for
every other aggregate. -/
def aggEmptyValue : AggType → Value
  | .CountStar => .int 0
  | .Max | .Min | .Count | .Sum => .null

/-- All rows produced by repeated `AggregationExecutor::Next` calls
after `Init` built the hash table `aht`: an empty table emits either
the single initial-value row (no group-bys) or nothing (group-bys
present); a non-empty table emits group-by values followed by
aggregates per group. -/
def aggregationOutput (groupBys : List Nat) (aggTypes : List AggType)
    (aht : List (List Value × List Value)) : List (List Value) :=
  if aht.isEmpty then
    if !groupBys.isEmpty then []
    else [aggTypes.map aggEmptyValue]
  else aht.map (fun p => p.1 ++ p.2)

/-- `Init` then draining `Next`: build the hash table from the child's
(key, value) rows, then emit. -/
def aggregationRun (groupBys : List Nat) (aggTypes : List AggType)
    (child : List (List Value × List Value)) : List (List Value) :=
  aggregationOutput groupBys aggTypes
    (child.foldl (fun t p => insertCombine aggTypes t p.1 p.2) [])

/-- C8: with an empty child and no group-by columns the executor emits
exactly one row holding 0 for every `CountStar` aggregate and null for
every other aggregate; with an empty child and group-by columns it
emits no rows. -/
theorem aggregation_empty_input (groupBys : List Nat) (aggTypes : List AggType) :
    (groupBys = [] →
      aggregationRun groupBys aggTypes [] =
        [aggTypes.map (fun ty =>
          match ty with
          | .CountStar => Value.int 0
          | _ => Value.null)]) ∧
    (groupBys ≠ [] → aggregationRun groupBys aggTypes [] = []) := by
  constructor
  · intro h
    subst h
    unfold aggregationRun aggregationOutput
    simp
    intro ty _
    cases ty <;> rfl
  · intro h
    unfold aggregationRun aggregationOutput
    simp [h]

/-- Witness for C8: one `CountStar` and one `Sum` over an empty child,
without and with a group-by column. -/
theorem aggregation_empty_input_w :
    aggregationRun [] [.CountStar, .Sum] [] = [[Value.int 0, Value.null]] ∧
    aggregationRun [0] [.CountStar, .Sum] [] = [] :=
  ⟨(aggregation_empty_input [] [.CountStar, .Sum]).1 rfl,
   (aggregation_empty_input [0] [.CountStar, .Sum]).2 (by simp)⟩

/-- `CmpBool`, the three-valued comparison result. -/
inductive CmpBool where
  | CmpFalse | CmpTrue | CmpNull
deriving Repr, DecidableEq

instance : BEq CmpBool := ⟨fun a b => decide (a = b)⟩

/-- `Value::CompareLessThan`: three-valued; any null operand yields
`CmpNull`. -/
def vCompareLessThan : Value → Value → CmpBool
  | .int a, .int b => if a < b then .CmpTrue else .CmpFalse
  | _, _ => .CmpNull

/-- `OrderByType`. -/
inductive OrderType where
  | Default | Asc | Desc
deriving Repr, DecidableEq

/-- The comparator shared verbatim by `SortExecutor::Init` and
`TopNExecutor::Init`: walk the `(order, column)` pairs; two values
neither of which is less than the other compare equal and fall through
to the next key; otherwise ASC/DEFAULT answers `l < r` and DESC answers
`r < l`.  When every key compares equal the lambda returns true (the
`BUSTUB_ASSERT` above that return is inactive in release builds). -/
def tupleLess (obs : List (OrderType × Nat)) (lhs rhs : Tuple) : Bool :=
  match obs with
  | [] => true
  | (ot, col) :: rest =>
    let l := lhs.getD col .null
    let r := rhs.getD col .null
    let c1 := vCompareLessThan l r
    let c2 := vCompareLessThan r l
    if c1 == .CmpFalse && c2 == .CmpFalse then tupleLess rest lhs rhs
    else
      match ot with
      | .Default | .Asc => c1 == .CmpTrue
      | .Desc => c2 == .CmpTrue

/-- Ordered insertion: place `x` before the first element `y` with
`less x y = true`.  Note the source comparator answers true in *both*
directions for tuples whose every key compares equal, so on such
comparator-tied pairs the newcomer lands first — this fold is not a
stable sort on ties.  The C6 theorem therefore assumes a tie-free
input, on which the comparator is asymmetric and the sorted
permutation unique. -/
def ordInsert (less : Tuple → Tuple → Bool) (x : Tuple) : List Tuple → List Tuple
  | [] => [x]
  | y :: ys => if less x y then x :: y :: ys else y :: ordInsert less x ys

/-- `SortExecutor::Init`: materialize the child, then sort by the
comparator via the ordered-insertion fold, the model of `std::sort`.
On inputs containing comparator-tied tuples the source comparator is
not a strict weak ordering (it answers true both ways on full key
equality), `std::sort` has no defined behavior, and this model is not
stable on the tie; on tie-free inputs — the only ones the C6 theorem
speaks about — the comparator-sorted permutation is unique, so the
fold computes exactly what any valid `std::sort` run computes, and it
coincides with the claim's stable sort (`specStableSort` below). -/
def sortInit (obs : List (OrderType × Nat)) (input : List Tuple) : List Tuple :=
  input.foldl (fun acc x => ordInsert (tupleLess obs) x acc) []

/-- `tmp_heap.pop()` guarded by `tmp_heap.size() > n`: drop the
greatest element (the last of the ascending sequence) when the bounded
heap overflows. -/
def pqTrim (n : Nat) (l : List Tuple) : List Tuple :=
  if n < l.length then l.dropLast else l

/-- `TopNExecutor::Init`.  `std::priority_queue` is standard-library
code, not part of this repository; it is modelled through its contract:
the queue's element sequence kept ascending by the comparator, `push`
inserting in order, `top`/`pop` acting on the greatest element.  Each
child tuple is pushed and the queue popped once it exceeds `n`; the
drain loop then pops top-first into `tuples_` (descending — the
ascending sequence reversed), and the final `std::reverse` flips it
back ascending. -/
def topnInit (obs : List (OrderType × Nat)) (n : Nat) (input : List Tuple) : List Tuple :=
  let heap := input.foldl (fun h x => pqTrim n (ordInsert (tupleLess obs) x h)) []
  (heap.reverse).reverse

lemma ordInsert_ne_nil (less : Tuple → Tuple → Bool) (x : Tuple) (l : List Tuple) :
    ordInsert less x l ≠ [] := by
  cases l with
  | nil => simp [ordInsert]
  | cons y ys =>
    unfold ordInsert
    by_cases h : less x y = true <;> simp [h]

lemma pqTrim_take (L : List Tuple) (m : Nat) : pqTrim m (L.take (m + 1)) = L.take m := by
  unfold pqTrim
  by_cases h : m + 1 ≤ L.length
  · have hlen : (L.take (m + 1)).length = m + 1 := by
      rw [List.length_take]; omega
    rw [if_pos (by omega)]
    rw [List.dropLast_eq_take]
    rw [hlen]
    simp [List.take_take]
  · have hlen : (L.take (m + 1)).length = L.length := by
      rw [List.length_take]; omega
    rw [if_neg (by omega)]
    rw [List.take_of_length_le (by omega), List.take_of_length_le (by omega)]

lemma pqTrim_cons (y : Tuple) (B : List Tuple) (hB : B ≠ []) (m : Nat) :
    pqTrim (m + 1) (y :: B) = y :: pqTrim m B := by
  unfold pqTrim
  by_cases h : m < B.length
  · rw [if_pos (by simp; omega), if_pos h]
    exact List.dropLast_cons_of_ne_nil hB
  · rw [if_neg (by simp; omega), if_neg h]

/-- Pushing into the bounded queue commutes with `take n` of the full
sorted sequence. -/
lemma ordInsert_take (less : Tuple → Tuple → Bool) (x : Tuple) :
    ∀ (l : List Tuple) (n : Nat),
      pqTrim n (ordInsert less x (l.take n)) = (ordInsert less x l).take n := by
  intro l
  induction l with
  | nil =>
    intro n
    cases n with
    | zero => rfl
    | succ m =>
      show pqTrim (m + 1) (ordInsert less x []) = (ordInsert less x []).take (m + 1)
      unfold ordInsert pqTrim
      simp
  | cons y ys ih =>
    intro n
    cases n with
    | zero =>
      show pqTrim 0 (ordInsert less x []) = (ordInsert less x (y :: ys)).take 0
      unfold ordInsert pqTrim
      simp [ordInsert_ne_nil]
    | succ m =>
      show pqTrim (m + 1) (ordInsert less x (y :: ys.take m)) = _
      by_cases h : less x y = true
      · unfold ordInsert
        rw [if_pos h, if_pos h]
        have h1 : x :: y :: ys.take m = (x :: y :: ys).take (m + 2) := by simp
        rw [h1, pqTrim_take]
      · unfold ordInsert
        rw [if_neg h, if_neg h]
        rw [pqTrim_cons y _ (ordInsert_ne_nil less x _) m]
        rw [List.take_cons (by omega)]
        rw [ih m]
        simp

/-- The bounded-queue fold tracks `take n` of the sort fold. -/
lemma topn_fold_take (less : Tuple → Tuple → Bool) (n : Nat) :
    ∀ (input : List Tuple) (t : List Tuple),
      input.foldl (fun h x => pqTrim n (ordInsert less x h)) (t.take n) =
        (input.foldl (fun acc x => ordInsert less x acc) t).take n := by
  intro input
  induction input with
  | nil => intro t; simp
  | cons a rest ih =>
    intro t
    simp only [List.foldl_cons]
    rw [ordInsert_take less a t n]
    exact ih (ordInsert less a t)

/-- `a` strictly precedes `b`: less in one direction only.  On a
tie-free input this coincides with the source comparator. -/
def strictPrec (obs : List (OrderType × Nat)) (a b : Tuple) : Bool :=
  tupleLess obs a b && !(tupleLess obs b a)

/-- Stable ordered insertion, following the claim's words: the newcomer
passes every element it does not strictly precede, so tuples of equal
rank keep arrival order. -/
def stableInsert (s : Tuple → Tuple → Bool) (x : Tuple) : List Tuple → List Tuple
  | [] => [x]
  | y :: ys => if s x y then x :: y :: ys else y :: stableInsert s x ys

/-- The claim's Sort: a stable sort by the `(order, column)` pairs. -/
def specStableSort (obs : List (OrderType × Nat)) (input : List Tuple) : List Tuple :=
  input.foldl (fun acc x => stableInsert (strictPrec obs) x acc) []

lemma mem_stableInsert {s : Tuple → Tuple → Bool} {x y : Tuple} :
    ∀ {l : List Tuple}, y ∈ stableInsert s x l → y = x ∨ y ∈ l := by
  intro l
  induction l with
  | nil => intro h; simp [stableInsert] at h; exact Or.inl h
  | cons a t ih =>
    intro h
    unfold stableInsert at h
    by_cases hc : s x a = true
    · rw [if_pos hc] at h
      rcases List.mem_cons.mp h with h1 | h1
      · exact Or.inl h1
      · exact Or.inr h1
    · rw [if_neg hc] at h
      rcases List.mem_cons.mp h with h1 | h1
      · exact Or.inr (h1 ▸ List.mem_cons_self a t)
      · rcases ih h1 with h2 | h2
        · exact Or.inl h2
        · exact Or.inr (List.mem_cons_of_mem a h2)

/-- On elements the comparator decides asymmetrically, the source fold
and the stable insertion take the same branches. -/
lemma ordInsert_eq_stableInsert (obs : List (OrderType × Nat)) (x : Tuple) :
    ∀ (acc : List Tuple),
      (∀ y ∈ acc, tupleLess obs x y ≠ tupleLess obs y x) →
      ordInsert (tupleLess obs) x acc = stableInsert (strictPrec obs) x acc := by
  intro acc
  induction acc with
  | nil => intro _; rfl
  | cons y ys ih =>
    intro hx
    have hxy := hx y (List.mem_cons_self y ys)
    unfold ordInsert stableInsert
    by_cases hc : tupleLess obs x y = true
    · have hyx : tupleLess obs y x = false := by
        cases h2 : tupleLess obs y x with
        | false => rfl
        | true => rw [hc, h2] at hxy; exact absurd rfl hxy
      rw [if_pos hc,
        if_pos (show strictPrec obs x y = true by simp [strictPrec, hc, hyx])]
    · simp only [Bool.not_eq_true] at hc
      rw [if_neg (by simp [hc]),
        if_neg (show ¬ strictPrec obs x y = true by simp [strictPrec, hc])]
      rw [ih (fun y2 hy2 => hx y2 (List.mem_cons_of_mem y hy2))]

/-- On a tie-free input the whole sort folds agree. -/
lemma sortFold_eq_stable (obs : List (OrderType × Nat)) :
    ∀ (input acc : List Tuple),
      (∀ x ∈ input, ∀ y ∈ acc, tupleLess obs x y ≠ tupleLess obs y x) →
      input.Pairwise (fun a b => tupleLess obs a b ≠ tupleLess obs b a) →
      input.foldl (fun acc2 x => ordInsert (tupleLess obs) x acc2) acc =
        input.foldl (fun acc2 x => stableInsert (strictPrec obs) x acc2) acc := by
  intro input
  induction input with
  | nil => intro acc _ _; rfl
  | cons x rest ih =>
    intro acc hcross hpair
    have hx : ∀ y ∈ acc, tupleLess obs x y ≠ tupleLess obs y x :=
      hcross x (List.mem_cons_self x rest)
    simp only [List.foldl_cons]
    rw [ordInsert_eq_stableInsert obs x acc hx]
    apply ih
    · intro z hz y hy
      rcases mem_stableInsert hy with h1 | h1
      · subst h1
        have := (List.pairwise_cons.mp hpair).1 z hz
        exact fun h2 => this (h2.symm)
      · exact hcross z (List.mem_cons_of_mem x hz) y h1
    · exact (List.pairwise_cons.mp hpair).2

/-- The S7 input: a single ascending column over 5, 2, 8, 1, 4. -/
def s7Input : List Tuple :=
  [[Value.int 5], [Value.int 2], [Value.int 8], [Value.int 1], [Value.int 4]]

/-- Read slot `i`; unwritten slots are zeroed memory. -/
def arrGet (a : List (Nat × Nat)) (i : Nat) : Nat × Nat := a.getD i (0, 0)

/-- Write slot `i`, zero-padding the representation as needed. -/
def arrSet (a : List (Nat × Nat)) (i : Nat) (v : Nat × Nat) : List (Nat × Nat) :=
  if i < a.length then a.set i v
  else a ++ List.replicate (i - a.length) (0, 0) ++ [v]

/-- One B+ tree page: page type, current size, `parent_page_id_`
(`none` = `INVALID_PAGE_ID`), `next_page_id_` (leaves), and the body
array (for internal pages slot 0's key is invalid padding). -/
structure BptPage where
  isLeaf : Bool
  size : Nat
  parent : Option Nat
  next : Option Nat
  arr : List (Nat × Nat)
deriving Repr, DecidableEq

/-- `BPlusTree` state: the size thresholds fixed by the constructor
(`leaf_min = leaf_max >> 1`, `internal_min = (1 + internal_max) >> 1`),
root and leftmost-leaf ids, the page store, and the allocator. -/
structure BPT where
  leafMax : Nat
  leafMin : Nat
  internalMax : Nat
  internalMin : Nat
  root : Option Nat
  beginId : Option Nat
  pages : List (Nat × BptPage)
  nextPid : Nat
deriving Repr, DecidableEq

/-- Faults: fetching a page id that is not a tree page (the C++ would
reinterpret whatever page lives there), or exhausted loop fuel (never
reached on the runs below — fuel always exceeds the tree height). -/
inductive BptFault where
  | pageFault (pid : Nat)
  | fuelOut
deriving Repr, DecidableEq

/-- Insert-or-overwrite in a page store / map. -/
def mapStore {α : Type} (m : List (Nat × α)) (k : Nat) (v : α) : List (Nat × α) :=
  if (m.find? (fun p => p.1 == k)).isSome then
    m.map (fun p => if p.1 == k then (k, v) else p)
  else m ++ [(k, v)]

/-- The constructor. -/
def BPT.init (leafMax internalMax : Nat) : BPT :=
  ⟨leafMax, leafMax >>> 1, internalMax, (1 + internalMax) >>> 1,
    none, none, [], 1⟩

/-- `buffer_pool_manager_->FetchPage` cast to a tree page. -/
def BPT.fetchE (t : BPT) (pid : Nat) : Except BptFault BptPage :=
  match alookup t.pages pid with
  | some p => .ok p
  | none => .error (.pageFault pid)

/-- Write back a page. -/
def BPT.store (t : BPT) (pid : Nat) (p : BptPage) : BPT :=
  { t with pages := mapStore t.pages pid p }

/-- `NewLeafPage`/`NewInternalPage`: allocate and `Init`. -/
def BPT.newPage (t : BPT) (isLeaf : Bool) (parent : Option Nat) : Nat × BPT :=
  (t.nextPid,
    { t with pages := t.pages ++ [(t.nextPid, ⟨isLeaf, 0, parent, none, []⟩)],
             nextPid := t.nextPid + 1 })

/-- `DeletePage`. -/
def BPT.delPage (t : BPT) (pid : Nat) : BPT :=
  { t with pages := t.pages.filter (fun p => p.1 != pid) }

/-- `BPlusTree::LowerBound`, the source's binary search (`first`,
`len`); fuel equals the initial length so the structural recursion
mirrors the loop exactly. -/
def lbAux (a : List (Nat × Nat)) (key : Nat) : Nat → Nat → Nat → Nat
  | 0, first, _ => first
  | _ + 1, first, 0 => first
  | fuel + 1, first, len + 1 =>
    let half := (len + 1) >>> 1
    if (arrGet a (first + half)).1 < key then
      lbAux a key fuel (first + half + 1) (len - half)
    else lbAux a key fuel first half

/-- `LowerBound(first, last, key)` over slots `[first, last)`. -/
def lowerBound (a : List (Nat × Nat)) (key first last : Nat) : Nat :=
  lbAux a key (last - first + 1) first (last - first)

/-- `BPlusTree::UpperBound`. -/
def ubAux (a : List (Nat × Nat)) (key : Nat) : Nat → Nat → Nat → Nat
  | 0, first, _ => first
  | _ + 1, first, 0 => first
  | fuel + 1, first, len + 1 =>
    let half := (len + 1) >>> 1
    if key < (arrGet a (first + half)).1 then ubAux a key fuel first half
    else ubAux a key fuel (first + half + 1) (len - half)

/-- `UpperBound(first, last, key)` over slots `[first, last)`. -/
def upperBound (a : List (Nat × Nat)) (key first last : Nat) : Nat :=
  ubAux a key (last - first + 1) first (last - first)

/-- Shift slots right: `for (j = size; j > i; --j) arr[j] = arr[j-1]`
(second argument is `j`). -/
def shiftRight (i : Nat) : List (Nat × Nat) → Nat → List (Nat × Nat)
  | a, 0 => a
  | a, j + 1 =>
    if i < j + 1 then shiftRight i (arrSet a (j + 1) (arrGet a j)) j
    else a

/-- Shift slots left: `count` iterations of `arr[j] = arr[j+1]` starting
at `j`. -/
def shiftLeft : List (Nat × Nat) → Nat → Nat → List (Nat × Nat)
  | a, _, 0 => a
  | a, j, c + 1 => shiftLeft (arrSet a j (arrGet a (j + 1))) (j + 1) c

/-- Copy `count` slots starting at `start`. -/
def copyRange (a : List (Nat × Nat)) (start count : Nat) : List (Nat × Nat) :=
  (List.range count).map (fun j => arrGet a (start + j))

/-- The descent loop shared by `GetValue`/`Insert`/`Remove`: at each
internal node take `UpperBound` over keys `[1, size)` and descend
through the child at `index - 1`; stops at a leaf. -/
def descend (t : BPT) (key : Nat) : Nat → Nat → Except BptFault (Nat × BptPage)
  | 0, _ => .error .fuelOut
  | fuel + 1, pid => do
    let p ← t.fetchE pid
    if p.isLeaf then .ok (pid, p)
    else
      let i := upperBound p.arr key 1 p.size - 1
      descend t key fuel (arrGet p.arr i).2

/-- `BPlusTree::SplitLeaf`: no-op below `leaf_max`; otherwise allocate a
right sibling, move the upper half, patch the sibling chain; a root
split allocates a fresh internal root, a non-root split inserts the
separator (the new page's first key) into the parent and reports
whether the parent stayed within `internal_max`. -/
def splitLeaf (t : BPT) (oldId : Nat) : Except BptFault (Bool × BPT) := do
  let old ← t.fetchE oldId
  if old.size < t.leafMax then return (true, t)
  let (newId, t1) := t.newPage true old.parent
  let newArr := copyRange old.arr t.leafMin (t.leafMax - t.leafMin)
  let newPage : BptPage := ⟨true, t.leafMax - t.leafMin, old.parent, old.next, newArr⟩
  let old2 : BptPage := { old with next := some newId, size := t.leafMin }
  let t2 := (t1.store oldId old2).store newId newPage
  match old.parent with
  | none =>
    let (rootId, t3) := t2.newPage false none
    let rootPage : BptPage :=
      ⟨false, 2, none, none, [(0, oldId), ((arrGet newArr 0).1, newId)]⟩
    let t4 := ((t3.store rootId rootPage).store oldId
      { old2 with parent := some rootId }).store newId { newPage with parent := some rootId }
    return (true, { t4 with root := some rootId })
  | some parentId =>
    let parent ← t2.fetchE parentId
    let i := lowerBound parent.arr (arrGet newArr 0).1 1 parent.size
    let parr := arrSet (shiftRight i parent.arr parent.size) i ((arrGet newArr 0).1, newId)
    let t3 := t2.store parentId { parent with arr := parr, size := parent.size + 1 }
    return (decide (parent.size + 1 ≤ t.internalMax), t3)

/-- Reparent the children referenced by the given slots. -/
def reparent (newParent : Nat) : BPT → List (Nat × Nat) → Except BptFault BPT
  | t, [] => .ok t
  | t, (_, c) :: rest => do
    let child ← t.fetchE c
    reparent newParent (t.store c { child with parent := some newParent }) rest

/-- `BPlusTree::SplitInternal`: no-op at or below `internal_max`;
otherwise allocate a right sibling taking slots
`internal_min + 1 .. internal_max` plus the child pointer of slot
`internal_min` as its slot 0, reparent every moved child, promote the
key at slot `internal_min`; root splits allocate a fresh root. -/
def splitInternal (t : BPT) (oldId : Nat) : Except BptFault (Bool × BPT) := do
  let old ← t.fetchE oldId
  if old.size ≤ t.internalMax then return (true, t)
  let (newId, t1) := t.newPage false old.parent
  let count := t.internalMax - t.internalMin
  let newArr := (0, (arrGet old.arr t.internalMin).2) ::
    copyRange old.arr (t.internalMin + 1) count
  let newPage : BptPage := ⟨false, count + 1, old.parent, none, newArr⟩
  let t2 := (t1.store oldId { old with size := t.internalMin }).store newId newPage
  let t3 ← reparent newId t2 newArr
  match old.parent with
  | none =>
    let (rootId, t4) := t3.newPage false none
    let rootPage : BptPage :=
      ⟨false, 2, none, none, [(0, oldId), ((arrGet old.arr t.internalMin).1, newId)]⟩
    let old3 ← t4.fetchE oldId
    let new3 ← t4.fetchE newId
    let t5 := ((t4.store rootId rootPage).store oldId
      { old3 with parent := some rootId }).store newId { new3 with parent := some rootId }
    return (true, { t5 with root := some rootId })
  | some parentId =>
    let parent ← t3.fetchE parentId
    let i := lowerBound parent.arr (arrGet old.arr (t.internalMin + 1)).1 1 parent.size
    let parr := arrSet (shiftRight i parent.arr parent.size) i
      ((arrGet old.arr t.internalMin).1, newId)
    let t4 := t3.store parentId { parent with arr := parr, size := parent.size + 1 }
    return (decide (parent.size + 1 ≤ t.internalMax), t4)

/-- The `while (!SplitInternal(cur))` climb of `Insert`. -/
def splitClimb (t : BPT) : Nat → Nat → Except BptFault BPT
  | 0, _ => .error .fuelOut
  | fuel + 1, pid => do
    let res ← splitInternal t pid
    if res.1 then return res.2
    else
      let cur ← res.2.fetchE pid
      match cur.parent with
      | none => .error (.pageFault 0)
      | some parentId => splitClimb res.2 fuel parentId

/-- `BPlusTree::Insert`: an empty tree gets a fresh root leaf;
otherwise descend to the leaf, reject duplicates, shift-insert, then
split the leaf and climb splitting internal nodes while they overflow. -/
def BPT.insert (t : BPT) (key value : Nat) : Except BptFault BPT := do
  match t.root with
  | none =>
    let (pid, t1) := t.newPage true none
    let page : BptPage := ⟨true, 1, none, none, [(key, value)]⟩
    return { t1.store pid page with root := some pid, beginId := some pid }
  | some rootId =>
    let (leafId, leaf) ← descend t key (t.pages.length + 1) rootId
    let i := lowerBound leaf.arr key 0 leaf.size
    if i < leaf.size ∧ (arrGet leaf.arr i).1 = key then return t
    let arr2 := arrSet (shiftRight i leaf.arr leaf.size) i (key, value)
    let t2 := t.store leafId { leaf with arr := arr2, size := leaf.size + 1 }
    let res ← splitLeaf t2 leafId
    if res.1 then return res.2
    else
      let leaf2 ← res.2.fetchE leafId
      match leaf2.parent with
      | none => .error (.pageFault 0)
      | some parentId => splitClimb res.2 (res.2.pages.length + 1) parentId

/-- `BPlusTree::MergeLeaf` (signature `MergeLeaf(LeafPage *&)` — the
returned page id is the possibly reassigned `old_leaf_page`): no-op at
or above `leaf_min`; an underfull root is deleted once empty; otherwise
borrow from the left then the right sibling, else merge left (the left
sibling absorbs, separator removed, sibling chain patched, page
deleted) or merge right, collapsing a root whose size falls to 1 and
otherwise reporting whether the parent stayed at `internal_min`. -/
def mergeLeaf (t : BPT) (oldId : Nat) : Except BptFault (Bool × Nat × BPT) := do
  let old ← t.fetchE oldId
  if t.leafMin ≤ old.size then return (true, oldId, t)
  match old.parent with
  | none =>
    if old.size = 0 then
      let t2 := t.delPage oldId
      return (true, oldId, { t2 with root := none, beginId := none })
    return (true, oldId, t)
  | some parentId =>
    let parent ← t.fetchE parentId
    let i := upperBound parent.arr (arrGet old.arr 0).1 1 parent.size - 1
    -- borrow from the left sibling
    if 1 ≤ i then
      let leftId := (arrGet parent.arr (i - 1)).2
      let left ← t.fetchE leftId
      if t.leafMin < left.size then
        let oarr := arrSet (shiftRight 0 old.arr old.size) 0
          (arrGet left.arr (left.size - 1))
        let parr := arrSet parent.arr i ((arrGet oarr 0).1, (arrGet parent.arr i).2)
        let t2 := ((t.store leftId { left with size := left.size - 1 }).store oldId
          { old with arr := oarr, size := old.size + 1 }).store parentId
          { parent with arr := parr }
        return (true, oldId, t2)
    -- borrow from the right sibling
    if i + 1 < parent.size then
      let rightId := (arrGet parent.arr (i + 1)).2
      let right ← t.fetchE rightId
      if t.leafMin < right.size then
        let oarr := arrSet old.arr old.size (arrGet right.arr 0)
        let rarr := shiftLeft right.arr 0 (right.size - 1 + 1)
        let parr := arrSet parent.arr (i + 1) ((arrGet rarr 0).1, (arrGet parent.arr (i + 1)).2)
        let t2 := ((t.store oldId { old with arr := oarr, size := old.size + 1 }).store
          rightId { right with arr := rarr, size := right.size - 1 }).store parentId
          { parent with arr := parr }
        return (true, oldId, t2)
    -- merge into the left sibling
    if 1 ≤ i then
      let leftId := (arrGet parent.arr (i - 1)).2
      let left ← t.fetchE leftId
      let larr := (List.range old.size).foldl
        (fun a k => arrSet a (left.size + k) (arrGet old.arr k)) left.arr
      let parr := shiftLeft parent.arr i (parent.size - 1 - i)
      let left2 : BptPage :=
        { left with arr := larr, size := left.size + old.size, next := old.next }
      let t2 := ((t.store leftId left2).store parentId
        { parent with arr := parr, size := parent.size - 1 }).delPage oldId
      if parent.parent = none ∧ parent.size - 1 ≤ 1 then
        let t3 := (t2.store leftId { left2 with parent := none }).delPage parentId
        return (true, leftId, { t3 with root := some leftId })
      return (decide (t.internalMin ≤ parent.size - 1), leftId, t2)
    -- merge the right sibling into this leaf
    if i + 1 < parent.size then
      let rightId := (arrGet parent.arr (i + 1)).2
      let right ← t.fetchE rightId
      let oarr := (List.range right.size).foldl
        (fun a k => arrSet a (old.size + k) (arrGet right.arr k)) old.arr
      let parr := shiftLeft parent.arr (i + 1) (parent.size - 1 - (i + 1))
      let old2 : BptPage :=
        { old with arr := oarr, size := old.size + right.size, next := right.next }
      let t2 := ((t.store oldId old2).store parentId
        { parent with arr := parr, size := parent.size - 1 }).delPage rightId
      if parent.parent = none ∧ parent.size - 1 ≤ 1 then
        let t3 := (t2.store oldId { old2 with parent := none }).delPage parentId
        return (true, oldId, { t3 with root := some oldId })
      return (decide (t.internalMin ≤ parent.size - 1), oldId, t2)
    return (false, oldId, t)

/-- `BPlusTree::MergeInternal` (`MergeInternal(InternalPage *&)`).
Note the right-sibling guards: the source tests
`i + 1 <= parent->GetSize()` where valid child slots are
`0 .. GetSize()-1` (`MergeLeaf` tests `i + 1 < parent->GetSize()`), so
with `i = GetSize() - 1` the code reads the out-of-bounds slot
`parent_array[GetSize()]` and fetches whatever page id sits in that
unwritten memory — zeroed, hence page 0, the header page.  The
embedding keeps the guard as written; following such a slot faults. -/
def mergeInternal (t : BPT) (oldId : Nat) : Except BptFault (Bool × Nat × BPT) := do
  let old ← t.fetchE oldId
  if t.internalMin ≤ old.size ∨ old.parent = none then return (true, oldId, t)
  match old.parent with
  | none => return (true, oldId, t)
  | some parentId =>
    let parent ← t.fetchE parentId
    let i := upperBound parent.arr (arrGet old.arr 1).1 1 parent.size - 1
    -- borrow a child from the left sibling (rotate through the parent)
    if 1 ≤ i then
      let leftId := (arrGet parent.arr (i - 1)).2
      let left ← t.fetchE leftId
      if t.internalMin < left.size then
        let oarr0 := shiftRight 0 old.arr old.size
        let oarr1 := arrSet oarr0 1 ((arrGet parent.arr i).1, (arrGet oarr0 1).2)
        let oarr2 := arrSet oarr1 0
          ((arrGet oarr1 0).1, (arrGet left.arr (left.size - 1)).2)
        let parr := arrSet parent.arr i
          ((arrGet left.arr (left.size - 1)).1, (arrGet parent.arr i).2)
        let t2 := ((t.store oldId { old with arr := oarr2, size := old.size + 1 }).store
          leftId { left with size := left.size - 1 }).store parentId
          { parent with arr := parr }
        let child0 ← t2.fetchE (arrGet oarr2 0).2
        let t3 := t2.store (arrGet oarr2 0).2 { child0 with parent := some oldId }
        return (true, oldId, t3)
    -- borrow a child from the right sibling (buggy guard, see above)
    if i + 1 ≤ parent.size then
      let rightId := (arrGet parent.arr (i + 1)).2
      let right ← t.fetchE rightId
      if t.internalMin < right.size then
        let oarr := arrSet old.arr old.size
          ((arrGet parent.arr (i + 1)).1, (arrGet right.arr 0).2)
        let parr := arrSet parent.arr (i + 1)
          ((arrGet right.arr 1).1, (arrGet parent.arr (i + 1)).2)
        let rarr := shiftLeft right.arr 0 (right.size - 1)
        let t2 := ((t.store oldId { old with arr := oarr, size := old.size + 1 }).store
          rightId { right with arr := rarr, size := right.size - 1 }).store parentId
          { parent with arr := parr }
        let movedId := (arrGet oarr (old.size + 1 - 1)).2
        let child0 ← t2.fetchE movedId
        let t3 := t2.store movedId { child0 with parent := some oldId }
        return (true, oldId, t3)
    -- merge this node into the left sibling
    if 1 ≤ i then
      let leftId := (arrGet parent.arr (i - 1)).2
      let left ← t.fetchE leftId
      let larr0 := arrSet left.arr left.size
        ((arrGet parent.arr i).1, (arrGet old.arr 0).2)
      let child0 ← t.fetchE (arrGet old.arr 0).2
      let t1 := t.store (arrGet old.arr 0).2 { child0 with parent := some leftId }
      let larr := (List.range (old.size - 1)).foldl
        (fun a k => arrSet a (left.size + 1 + k) (arrGet old.arr (1 + k))) larr0
      let t2 ← reparent leftId t1 (copyRange old.arr 1 (old.size - 1))
      let parr := shiftLeft parent.arr i (parent.size - 1 - i)
      let t3 := (t2.store leftId
        { left with arr := larr, size := left.size + old.size }).store parentId
        { parent with arr := parr, size := parent.size - 1 }
      if parent.parent = none ∧ parent.size - 1 ≤ 1 then
        let left2 ← t3.fetchE leftId
        let t4 := ((t3.store leftId { left2 with parent := none }).delPage oldId).delPage
          parentId
        return (true, leftId, { t4 with root := some leftId })
      let t4 := t3.delPage oldId
      return (decide (t.internalMin ≤ parent.size - 1), leftId, t4)
    -- merge the right sibling into this node (buggy guard, see above)
    if i + 1 ≤ parent.size then
      let rightId := (arrGet parent.arr (i + 1)).2
      let right ← t.fetchE rightId
      let oarr0 := arrSet old.arr old.size
        ((arrGet parent.arr (i + 1)).1, (arrGet right.arr 0).2)
      let child0 ← t.fetchE (arrGet right.arr 0).2
      let t1 := t.store (arrGet right.arr 0).2 { child0 with parent := some oldId }
      let oarr := (List.range (right.size - 1)).foldl
        (fun a k => arrSet a (old.size + 1 + k) (arrGet right.arr (1 + k))) oarr0
      let t2 ← reparent oldId t1 (copyRange right.arr 1 (right.size - 1))
      let parr := shiftLeft parent.arr (i + 1) (parent.size - 1 - (i + 1))
      let t3 := (t2.store oldId
        { old with arr := oarr, size := old.size + right.size }).store parentId
        { parent with arr := parr, size := parent.size - 1 }
      if parent.parent = none ∧ parent.size - 1 ≤ 1 then
        let old2 ← t3.fetchE oldId
        let t4 := ((t3.store oldId { old2 with parent := none }).delPage rightId).delPage
          parentId
        return (true, oldId, { t4 with root := some oldId })
      let t4 := t3.delPage rightId
      return (decide (t.internalMin ≤ parent.size - 1), oldId, t4)
    return (false, oldId, t)

/-- The `while (!MergeInternal(cur))` climb of `Remove`. -/
def mergeClimb (t : BPT) : Nat → Nat → Except BptFault BPT
  | 0, _ => .error .fuelOut
  | fuel + 1, pid => do
    let res ← mergeInternal t pid
    if res.1 then return res.2.2
    else
      let cur ← res.2.2.fetchE res.2.1
      match cur.parent with
      | none => .error (.pageFault 0)
      | some parentId => mergeClimb res.2.2 fuel parentId

/-- `BPlusTree::Remove`: empty tree is a no-op; descend, absent key is
a no-op; shift-delete, `MergeLeaf`, then climb merging internal nodes
while they report underflow. -/
def BPT.remove (t : BPT) (key : Nat) : Except BptFault BPT := do
  match t.root with
  | none => return t
  | some rootId =>
    let (leafId, leaf) ← descend t key (t.pages.length + 1) rootId
    let i := lowerBound leaf.arr key 0 leaf.size
    if (i < leaf.size ∧ (arrGet leaf.arr i).1 ≠ key) ∨ leaf.size ≤ i then return t
    let arr2 := shiftLeft leaf.arr i (leaf.size - 1 - i)
    let t2 := t.store leafId { leaf with arr := arr2, size := leaf.size - 1 }
    let res ← mergeLeaf t2 leafId
    if res.1 then return res.2.2
    else
      let cur ← res.2.2.fetchE res.2.1
      match cur.parent with
      | none => .error (.pageFault 0)
      | some parentId => mergeClimb res.2.2 (res.2.2.pages.length + 2) parentId

/-- Insert 6, 9, 21, 13, 17, 16 into a tree with `leaf_max = 2`,
`internal_max = 3`, then remove 17. -/
def bptScript : Except BptFault BPT := do
  let t0 := BPT.init 2 3
  let t1 ← t0.insert 6 6
  let t2 ← t1.insert 9 9
  let t3 ← t2.insert 21 21
  let t4 ← t3.insert 13 13
  let t5 ← t4.insert 17 17
  let t6 ← t5.insert 16 16
  t6.remove 17

